import Mathlib

/-!
Verification of the dob-edge real-time sports-data fan-out hub.

This file shallowly embeds the data model and operations of the hub
(the delta merge, the fingerprint gates, the per-game odds cache, the
cache-cleaning pass, the rolling message-count ring buffer, the
broadcaster, the attach-time replay, the odds-array builder, and the
counts extractor) as executable Lean definitions, and proves or refutes
the specified properties about them.
-/

namespace DobEdge

/-! ## JSON value model

Upstream payloads and accumulated subscription state are JSON-like
nested mappings.  Objects are modelled as association lists with the
JavaScript invariant that keys are unique; insertion order is
significant (it is observable through iteration). -/

inductive JVal where
  | null
  | bool (b : Bool)
  | num (n : Int)
  | str (s : String)
  | arr (elems : List JVal)
  | obj (fields : List (String × JVal))
deriving Repr

/-- First-match lookup of a key in an object's field list
(JavaScript property access `o[k]`; `none` models `undefined`). -/
def lookupKey : List (String × JVal) → String → Option JVal
  | [], _ => none
  | (k', v) :: rest, k => if k' = k then some v else lookupKey rest k

/-- JavaScript property assignment `o[k] = v`: replaces the value in
place when the key exists, otherwise appends the key at the end. -/
def setKey : List (String × JVal) → String → JVal → List (String × JVal)
  | [], k, v => [(k, v)]
  | (k', v') :: rest, k, v =>
      if k' = k then (k', v) :: rest else (k', v') :: setKey rest k v

/-- JavaScript `delete o[k]`. -/
def eraseKey : List (String × JVal) → String → List (String × JVal)
  | [], _ => []
  | (k', v') :: rest, k => if k' = k then rest else (k', v') :: eraseKey rest k

/-- The keys of an object's field list, in order. -/
def keysOf (l : List (String × JVal)) : List String := l.map Prod.fst

/-- The JavaScript object invariant: keys are pairwise distinct. -/
def nodupKeys (l : List (String × JVal)) : Prop := (keysOf l).Nodup

instance (l : List (String × JVal)) : Decidable (nodupKeys l) := by
  unfold nodupKeys; infer_instance

/-! ## Delta merge (src/unnamed/part_005 deepMerge, SwarmHubDO.ts deepMerge)

The TypeScript source mutates the target object in place:

    private deepMerge(target, patch): void {
      if (!patch || typeof patch !== 'object') return;
      for (const [k, v] of Object.entries(patch)) {
        if (v === null) { delete target[k]; continue; }
        if (Array.isArray(v)) { target[k] = v; continue; }
        if (v && typeof v === 'object') {
          const cur = target[k];
          if (!cur || typeof cur !== 'object' || Array.isArray(cur)) {
            target[k] = {};
          }
          this.deepMerge(target[k], v); continue;
        }
        target[k] = v;
      }
    }

`deepMergeFields` threads the mutated target through the field
iteration explicitly. -/

def deepMergeFields (target : List (String × JVal)) :
    List (String × JVal) → List (String × JVal)
  | [] => target
  | (k, JVal.null) :: rest => deepMergeFields (eraseKey target k) rest
  | (k, JVal.arr xs) :: rest => deepMergeFields (setKey target k (JVal.arr xs)) rest
  | (k, JVal.obj fs) :: rest =>
      let cur : List (String × JVal) :=
        match lookupKey target k with
        | some (JVal.obj cf) => cf
        | _ => []
      deepMergeFields (setKey target k (JVal.obj (deepMergeFields cur fs))) rest
  | (k, v) :: rest => deepMergeFields (setKey target k v) rest
termination_by patch => sizeOf patch
decreasing_by all_goals simp_wf <;> omega

/-- Top-level `deepMerge`: a falsy or non-object patch is a no-op; an
array patch is iterated by `Object.entries` as index-keyed fields; an
object patch merges field by field. -/
def deepMerge (target : List (String × JVal)) (patch : JVal) :
    List (String × JVal) :=
  match patch with
  | JVal.obj fs => deepMergeFields target fs
  | JVal.arr xs => deepMergeFields target (xs.enum.map (fun p => (toString p.1, p.2)))
  | _ => target

/-! ### Association-list lemmas -/

theorem lookupKey_setKey_self (t : List (String × JVal)) (k : String) (v : JVal) :
    lookupKey (setKey t k v) k = some v := by
  induction t with
  | nil => simp [setKey, lookupKey]
  | cons hd rest ih =>
      obtain ⟨k', v'⟩ := hd
      by_cases hk : k' = k
      · simp [setKey, lookupKey, hk]
      · simp [setKey, lookupKey, hk, ih]

theorem lookupKey_setKey_ne (t : List (String × JVal)) (k k' : String) (v : JVal)
    (h : k' ≠ k) : lookupKey (setKey t k v) k' = lookupKey t k' := by
  have h' : k ≠ k' := Ne.symm h
  induction t with
  | nil => simp [setKey, lookupKey, h']
  | cons hd rest ih =>
      obtain ⟨k0, v0⟩ := hd
      by_cases hk : k0 = k
      · subst hk
        simp [setKey, lookupKey, h']
      · by_cases hk' : k0 = k'
        · simp [setKey, lookupKey, hk, hk', h]
        · simp [setKey, lookupKey, hk, hk', ih]

theorem lookupKey_eraseKey_self (t : List (String × JVal)) (k : String)
    (h : nodupKeys t) : lookupKey (eraseKey t k) k = none := by
  induction t with
  | nil => simp [eraseKey, lookupKey]
  | cons hd rest ih =>
      obtain ⟨k0, v0⟩ := hd
      simp only [nodupKeys, keysOf, List.map_cons, List.nodup_cons] at h
      by_cases hk : k0 = k
      · subst hk
        simp only [eraseKey, if_pos rfl]
        -- k is not among the remaining keys, so lookup fails
        clear ih
        induction rest with
        | nil => simp [lookupKey]
        | cons hd2 rest2 ih2 =>
            obtain ⟨k1, v1⟩ := hd2
            simp only [List.map_cons, List.mem_cons, not_or] at h
            have hk1 : k1 ≠ k0 := fun hh => h.1.1 hh.symm
            simp only [lookupKey, if_neg hk1]
            exact ih2 ⟨h.1.2, (List.nodup_cons.mp h.2).2⟩
      · simp only [eraseKey, if_neg hk, lookupKey, if_neg hk]
        exact ih (by simpa [nodupKeys, keysOf] using h.2)

theorem lookupKey_eraseKey_ne (t : List (String × JVal)) (k k' : String)
    (h : k' ≠ k) : lookupKey (eraseKey t k) k' = lookupKey t k' := by
  have h' : k ≠ k' := Ne.symm h
  induction t with
  | nil => simp [eraseKey, lookupKey]
  | cons hd rest ih =>
      obtain ⟨k0, v0⟩ := hd
      by_cases hk : k0 = k
      · subst hk
        simp [eraseKey, lookupKey, h']
      · by_cases hk' : k0 = k'
        · simp [eraseKey, lookupKey, hk, hk', h]
        · simp [eraseKey, lookupKey, hk, hk', ih]

theorem mem_keysOf_setKey (t : List (String × JVal)) (k a : String) (v : JVal)
    (h : a ∈ keysOf (setKey t k v)) : a ∈ keysOf t ∨ a = k := by
  induction t with
  | nil => simpa [setKey, keysOf] using h
  | cons hd rest ih =>
      obtain ⟨k0, v0⟩ := hd
      by_cases hk : k0 = k
      · simp only [setKey, if_pos hk, keysOf, List.map_cons, List.mem_cons] at h ⊢
        tauto
      · simp only [setKey, if_neg hk, keysOf, List.map_cons, List.mem_cons] at h ⊢
        rcases h with h | h
        · tauto
        · rcases ih h with h' | h' <;> tauto

theorem nodupKeys_setKey (t : List (String × JVal)) (k : String) (v : JVal)
    (h : nodupKeys t) : nodupKeys (setKey t k v) := by
  induction t with
  | nil => simp [setKey, nodupKeys, keysOf]
  | cons hd rest ih =>
      obtain ⟨k0, v0⟩ := hd
      simp only [nodupKeys, keysOf, List.map_cons, List.nodup_cons] at h
      by_cases hk : k0 = k
      · simpa [setKey, hk, nodupKeys, keysOf] using h
      · have tail := ih h.2
        simp only [setKey, if_neg hk, nodupKeys, keysOf, List.map_cons,
          List.nodup_cons] at tail ⊢
        refine ⟨fun hmem => ?_, tail⟩
        rcases mem_keysOf_setKey rest k k0 v hmem with h' | h'
        · exact h.1 h'
        · exact hk h'

theorem keysOf_eraseKey_sublist (t : List (String × JVal)) (k : String) :
    (keysOf (eraseKey t k)).Sublist (keysOf t) := by
  induction t with
  | nil => simp [eraseKey, keysOf]
  | cons hd rest ih =>
      obtain ⟨k0, v0⟩ := hd
      by_cases hk : k0 = k
      · simp only [eraseKey, if_pos hk, keysOf, List.map_cons]
        exact List.sublist_cons_of_sublist _ (List.Sublist.refl _)
      · simp only [eraseKey, if_neg hk, keysOf, List.map_cons]
        exact List.Sublist.cons₂ _ ih

theorem nodupKeys_eraseKey (t : List (String × JVal)) (k : String)
    (h : nodupKeys t) : nodupKeys (eraseKey t k) :=
  List.Nodup.sublist (keysOf_eraseKey_sublist t k) h

/-- The object fields of an optional value, or the empty mapping when
it is not an object (the target primed before a recursive merge). -/
def objFieldsOr (v : Option JVal) : List (String × JVal) :=
  match v with
  | some (JVal.obj cf) => cf
  | _ => []

theorem lookupKey_eq_none (l : List (String × JVal)) (k : String)
    (h : k ∉ keysOf l) : lookupKey l k = none := by
  induction l with
  | nil => simp [lookupKey]
  | cons hd rest ih =>
      obtain ⟨k0, v0⟩ := hd
      simp only [keysOf, List.map_cons, List.mem_cons, not_or] at h
      simp only [lookupKey, if_neg (fun hh : k0 = k => h.1 hh.symm)]
      exact ih h.2

/-- The per-key effect of one delta entry, as the specification words
it: absent keys leave the target alone, `null` deletes, a sequence
replaces, a sub-mapping merges recursively into the existing value
(starting from the empty mapping when the existing value is not a
mapping), and any other scalar replaces. -/
def deltaKeySpec (tv : Option JVal) : Option JVal → Option JVal
  | none => tv
  | some JVal.null => none
  | some (JVal.arr xs) => some (JVal.arr xs)
  | some (JVal.obj fs) => some (JVal.obj (deepMergeFields (objFieldsOr tv) fs))
  | some v => some v

theorem nodupKeys_cons_tail {k : String} {v : JVal} {rest : List (String × JVal)}
    (h : nodupKeys ((k, v) :: rest)) : nodupKeys rest := by
  simpa [nodupKeys, keysOf] using (List.nodup_cons.mp h).2

theorem nodupKeys_cons_head {k : String} {v : JVal} {rest : List (String × JVal)}
    (h : nodupKeys ((k, v) :: rest)) : k ∉ keysOf rest := by
  simpa [nodupKeys, keysOf] using (List.nodup_cons.mp h).1

theorem deepMergeFields_lookup (delta : List (String × JVal)) :
    ∀ (target : List (String × JVal)), nodupKeys target → nodupKeys delta →
    ∀ k, lookupKey (deepMergeFields target delta) k
      = deltaKeySpec (lookupKey target k) (lookupKey delta k) := by
  induction delta with
  | nil => intro target ht hd k; simp [deepMergeFields, deltaKeySpec, lookupKey]
  | cons hd rest ih =>
      obtain ⟨dk, dv⟩ := hd
      intro target ht hdelta k
      have hdrest : nodupKeys rest := nodupKeys_cons_tail hdelta
      have hdhead : dk ∉ keysOf rest := nodupKeys_cons_head hdelta
      by_cases hk : k = dk
      · subst hk
        have hnone : lookupKey rest k = none := lookupKey_eq_none rest k hdhead
        cases dv with
        | null =>
            rw [show deepMergeFields target ((k, JVal.null) :: rest)
                = deepMergeFields (eraseKey target k) rest by simp [deepMergeFields]]
            rw [ih (eraseKey target k) (nodupKeys_eraseKey target k ht) hdrest k]
            simp [deltaKeySpec, lookupKey, hnone, lookupKey_eraseKey_self target k ht]
        | arr xs =>
            rw [show deepMergeFields target ((k, JVal.arr xs) :: rest)
                = deepMergeFields (setKey target k (JVal.arr xs)) rest by
                  simp [deepMergeFields]]
            rw [ih _ (nodupKeys_setKey target k _ ht) hdrest k]
            simp [deltaKeySpec, lookupKey, hnone, lookupKey_setKey_self]
        | obj fs =>
            rw [show deepMergeFields target ((k, JVal.obj fs) :: rest)
                = deepMergeFields
                    (setKey target k
                      (JVal.obj (deepMergeFields (objFieldsOr (lookupKey target k)) fs)))
                    rest by
                  simp [deepMergeFields, objFieldsOr]]
            rw [ih _ (nodupKeys_setKey target k _ ht) hdrest k]
            simp [deltaKeySpec, lookupKey, hnone, lookupKey_setKey_self]
        | bool b =>
            rw [show deepMergeFields target ((k, JVal.bool b) :: rest)
                = deepMergeFields (setKey target k (JVal.bool b)) rest by
                  simp [deepMergeFields]]
            rw [ih _ (nodupKeys_setKey target k _ ht) hdrest k]
            simp [deltaKeySpec, lookupKey, hnone, lookupKey_setKey_self]
        | num n =>
            rw [show deepMergeFields target ((k, JVal.num n) :: rest)
                = deepMergeFields (setKey target k (JVal.num n)) rest by
                  simp [deepMergeFields]]
            rw [ih _ (nodupKeys_setKey target k _ ht) hdrest k]
            simp [deltaKeySpec, lookupKey, hnone, lookupKey_setKey_self]
        | str s =>
            rw [show deepMergeFields target ((k, JVal.str s) :: rest)
                = deepMergeFields (setKey target k (JVal.str s)) rest by
                  simp [deepMergeFields]]
            rw [ih _ (nodupKeys_setKey target k _ ht) hdrest k]
            simp [deltaKeySpec, lookupKey, hnone, lookupKey_setKey_self]
      · have hk' : ¬ dk = k := fun hh => hk hh.symm
        have hlk : lookupKey ((dk, dv) :: rest) k = lookupKey rest k := by
          simp [lookupKey, hk']
        cases dv with
        | null =>
            rw [show deepMergeFields target ((dk, JVal.null) :: rest)
                = deepMergeFields (eraseKey target dk) rest by simp [deepMergeFields]]
            rw [ih (eraseKey target dk) (nodupKeys_eraseKey target dk ht) hdrest k]
            rw [hlk, lookupKey_eraseKey_ne target dk k hk]
        | arr xs =>
            rw [show deepMergeFields target ((dk, JVal.arr xs) :: rest)
                = deepMergeFields (setKey target dk (JVal.arr xs)) rest by
                  simp [deepMergeFields]]
            rw [ih _ (nodupKeys_setKey target dk _ ht) hdrest k]
            rw [hlk, lookupKey_setKey_ne target dk k _ hk]
        | obj fs =>
            rw [show deepMergeFields target ((dk, JVal.obj fs) :: rest)
                = deepMergeFields
                    (setKey target dk
                      (JVal.obj (deepMergeFields (objFieldsOr (lookupKey target dk)) fs)))
                    rest by
                  simp [deepMergeFields, objFieldsOr]]
            rw [ih _ (nodupKeys_setKey target dk _ ht) hdrest k]
            rw [hlk, lookupKey_setKey_ne target dk k _ hk]
        | bool b =>
            rw [show deepMergeFields target ((dk, JVal.bool b) :: rest)
                = deepMergeFields (setKey target dk (JVal.bool b)) rest by
                  simp [deepMergeFields]]
            rw [ih _ (nodupKeys_setKey target dk _ ht) hdrest k]
            rw [hlk, lookupKey_setKey_ne target dk k _ hk]
        | num n =>
            rw [show deepMergeFields target ((dk, JVal.num n) :: rest)
                = deepMergeFields (setKey target dk (JVal.num n)) rest by
                  simp [deepMergeFields]]
            rw [ih _ (nodupKeys_setKey target dk _ ht) hdrest k]
            rw [hlk, lookupKey_setKey_ne target dk k _ hk]
        | str s =>
            rw [show deepMergeFields target ((dk, JVal.str s) :: rest)
                = deepMergeFields (setKey target dk (JVal.str s)) rest by
                  simp [deepMergeFields]]
            rw [ih _ (nodupKeys_setKey target dk _ ht) hdrest k]
            rw [hlk, lookupKey_setKey_ne target dk k _ hk]

/-! ### Idempotence infrastructure -/

/-! A well-formed, null-free JSON state: object keys are pairwise
distinct and no object field holds `null` (the wire convention reserves
`null` for deletion, so an accumulated state never stores it). -/

mutual

def mergeReady : JVal → Bool
  | JVal.obj fs => decide (nodupKeys fs) && mergeReadyFields fs
  | _ => true

def mergeReadyFields : List (String × JVal) → Bool
  | [] => true
  | (_, v) :: rest =>
      (match v with
       | JVal.null => false
       | _ => true) && mergeReady v && mergeReadyFields rest

end

theorem lookupKey_of_mem_nodup (l : List (String × JVal)) (k : String) (v : JVal)
    (hn : nodupKeys l) (hm : (k, v) ∈ l) : lookupKey l k = some v := by
  induction l with
  | nil => cases hm
  | cons hd rest ih =>
      obtain ⟨k0, v0⟩ := hd
      rcases List.mem_cons.mp hm with heq | hmem
      · obtain ⟨hk, hv⟩ := Prod.mk.injEq .. ▸ heq
        simp [lookupKey, hk.symm, hv]
      · have hk0 : k0 ∉ keysOf rest := nodupKeys_cons_head hn
        have hkne : k0 ≠ k := by
          intro hh
          subst hh
          exact hk0 (List.mem_map.mpr ⟨(k0, v), hmem, rfl⟩)
        simp only [lookupKey, if_neg hkne]
        exact ih (nodupKeys_cons_tail hn) hmem

theorem setKey_of_lookup_eq (t : List (String × JVal)) (k : String) (v : JVal)
    (h : lookupKey t k = some v) : setKey t k v = t := by
  induction t with
  | nil => simp [lookupKey] at h
  | cons hd rest ih =>
      obtain ⟨k0, v0⟩ := hd
      by_cases hk : k0 = k
      · simp only [lookupKey, if_pos hk, Option.some.injEq] at h
        simp [setKey, hk, h]
      · simp only [lookupKey, if_neg hk] at h
        simp [setKey, hk, ih h]

/-- Merging a delta whose every entry already agrees with the target
leaves the target unchanged, provided the delta is well formed and
null-free. -/
theorem deepMergeFields_self (delta : List (String × JVal))
    (t : List (String × JVal))
    (hsub : ∀ k v, (k, v) ∈ delta → lookupKey t k = some v)
    (hok : mergeReadyFields delta = true) :
    deepMergeFields t delta = t := by
  match delta with
  | [] => simp [deepMergeFields]
  | (k, JVal.null) :: rest => simp [mergeReadyFields] at hok
  | (k, JVal.bool b) :: rest =>
      have hlk : lookupKey t k = some (JVal.bool b) := hsub k _ (List.mem_cons_self _ _)
      rw [show deepMergeFields t ((k, JVal.bool b) :: rest)
          = deepMergeFields (setKey t k (JVal.bool b)) rest by simp [deepMergeFields]]
      rw [setKey_of_lookup_eq t k _ hlk]
      exact deepMergeFields_self rest t
        (fun k' v' hm => hsub k' v' (List.mem_cons_of_mem _ hm))
        (by simpa [mergeReadyFields, mergeReady] using hok)
  | (k, JVal.num n) :: rest =>
      have hlk : lookupKey t k = some (JVal.num n) := hsub k _ (List.mem_cons_self _ _)
      rw [show deepMergeFields t ((k, JVal.num n) :: rest)
          = deepMergeFields (setKey t k (JVal.num n)) rest by simp [deepMergeFields]]
      rw [setKey_of_lookup_eq t k _ hlk]
      exact deepMergeFields_self rest t
        (fun k' v' hm => hsub k' v' (List.mem_cons_of_mem _ hm))
        (by simpa [mergeReadyFields, mergeReady] using hok)
  | (k, JVal.str s) :: rest =>
      have hlk : lookupKey t k = some (JVal.str s) := hsub k _ (List.mem_cons_self _ _)
      rw [show deepMergeFields t ((k, JVal.str s) :: rest)
          = deepMergeFields (setKey t k (JVal.str s)) rest by simp [deepMergeFields]]
      rw [setKey_of_lookup_eq t k _ hlk]
      exact deepMergeFields_self rest t
        (fun k' v' hm => hsub k' v' (List.mem_cons_of_mem _ hm))
        (by simpa [mergeReadyFields, mergeReady] using hok)
  | (k, JVal.arr xs) :: rest =>
      have hlk : lookupKey t k = some (JVal.arr xs) := hsub k _ (List.mem_cons_self _ _)
      rw [show deepMergeFields t ((k, JVal.arr xs) :: rest)
          = deepMergeFields (setKey t k (JVal.arr xs)) rest by simp [deepMergeFields]]
      rw [setKey_of_lookup_eq t k _ hlk]
      exact deepMergeFields_self rest t
        (fun k' v' hm => hsub k' v' (List.mem_cons_of_mem _ hm))
        (by simpa [mergeReadyFields, mergeReady] using hok)
  | (k, JVal.obj fs) :: rest =>
      have hlk : lookupKey t k = some (JVal.obj fs) := hsub k _ (List.mem_cons_self _ _)
      have hok2 : mergeReady (JVal.obj fs) = true ∧ mergeReadyFields rest = true := by
        simpa [mergeReadyFields] using hok
      have hfs : nodupKeys fs ∧ mergeReadyFields fs = true := by
        have := hok2.1
        simp only [mergeReady, Bool.and_eq_true, decide_eq_true_eq] at this
        exact this
      have hinner : deepMergeFields fs fs = fs :=
        deepMergeFields_self fs fs
          (fun k' v' hm => lookupKey_of_mem_nodup fs k' v' hfs.1 hm) hfs.2
      rw [show deepMergeFields t ((k, JVal.obj fs) :: rest)
          = deepMergeFields
              (setKey t k (JVal.obj (deepMergeFields (objFieldsOr (lookupKey t k)) fs)))
              rest by simp [deepMergeFields, objFieldsOr]]
      rw [show objFieldsOr (lookupKey t k) = fs by rw [hlk]; rfl]
      rw [hinner, setKey_of_lookup_eq t k _ hlk]
      exact deepMergeFields_self rest t
        (fun k' v' hm => hsub k' v' (List.mem_cons_of_mem _ hm)) hok2.2
termination_by sizeOf delta
decreasing_by all_goals simp_wf <;> omega

/-! ### Claim C2 and C8 theorems -/

/-- C2: the delta merge treats each key of the delta as the spec says —
null deletes, a sequence replaces, a sub-mapping merges recursively
(starting from an empty mapping when the existing value is not a
mapping), any other scalar replaces — and keys absent from the delta
are left unchanged.  Stated pointwise via `deltaKeySpec`. -/
theorem deepMerge_delta_semantics (target delta : List (String × JVal))
    (ht : nodupKeys target) (hd : nodupKeys delta) (k : String) :
    lookupKey (deepMerge target (JVal.obj delta)) k
      = deltaKeySpec (lookupKey target k) (lookupKey delta k) := by
  simpa [deepMerge] using deepMergeFields_lookup delta target ht hd k

theorem deepMerge_delta_semantics_witness :
    nodupKeys [("a", JVal.num 1), ("b", JVal.num 2)]
    ∧ nodupKeys [("a", JVal.null)]
    ∧ lookupKey
        (deepMerge [("a", JVal.num 1), ("b", JVal.num 2)] (JVal.obj [("a", JVal.null)])) "a"
      = deltaKeySpec
          (lookupKey [("a", JVal.num 1), ("b", JVal.num 2)] "a")
          (lookupKey [("a", JVal.null)] "a") :=
  ⟨by decide, by decide,
   deepMerge_delta_semantics [("a", JVal.num 1), ("b", JVal.num 2)]
     [("a", JVal.null)] (by decide) (by decide) "a"⟩

/-- C8 counterexample: idempotence fails on a state containing a null
value.  Merging the state `{a: null}` with a delta equal to itself
deletes the key `a` (null means delete), so the result is the empty
mapping, not the original state. -/
theorem deepMerge_self_null_cex :
    deepMerge [("a", JVal.null)] (JVal.obj [("a", JVal.null)]) ≠ [("a", JVal.null)] := by
  simp [deepMerge, deepMergeFields, eraseKey]

/-- C8 (amended): applying a delta equal to the current accumulated
state leaves the state unchanged for every well-formed, null-free
state — including states containing arrays and nested mappings.  (The
null case is excluded: null means delete, see the counterexample.) -/
theorem deepMerge_idempotent (s : List (String × JVal))
    (h : mergeReady (JVal.obj s) = true) :
    deepMerge s (JVal.obj s) = s := by
  have h2 : nodupKeys s ∧ mergeReadyFields s = true := by
    simpa [mergeReady] using h
  simpa [deepMerge] using
    deepMergeFields_self s s
      (fun k v hm => lookupKey_of_mem_nodup s k v h2.1 hm) h2.2

theorem deepMerge_idempotent_witness :
    mergeReady (JVal.obj [("a", JVal.num 1), ("b", JVal.arr [JVal.null]),
      ("c", JVal.obj [("d", JVal.str "x")])]) = true
    ∧ deepMerge
        [("a", JVal.num 1), ("b", JVal.arr [JVal.null]),
         ("c", JVal.obj [("d", JVal.str "x")])]
        (JVal.obj [("a", JVal.num 1), ("b", JVal.arr [JVal.null]),
         ("c", JVal.obj [("d", JVal.str "x")])])
      = [("a", JVal.num 1), ("b", JVal.arr [JVal.null]),
         ("c", JVal.obj [("d", JVal.str "x")])] :=
  ⟨by simp [mergeReady, mergeReadyFields, nodupKeys, keysOf],
   deepMerge_idempotent _ (by simp [mergeReady, mergeReadyFields, nodupKeys, keysOf])⟩

/-! ## Fingerprint gates (src/unnamed/part_005)

The sport-games gate (pollSportGroup, handleLiveSportGamesEmit):

    const fp = getSportFp(games);
    if (fp && fp === group.lastFp && group.lastGamesPayload) return;
    group.lastFp = fp;
    ...
    group.lastGamesPayload = payload;
    await this.broadcast(group.clients, encodeSseEvent('games', payload));

The per-game gate (handleLiveGameEmit, pollGameGroup):

    const fp = getGameFp(game) || (game ? getSportFp([game]) : '');
    if (fp === group.lastFp && group.lastPayload) return;
    group.lastFp = fp;
    ...
    group.lastPayload = payload;

An empty fingerprint is falsy in JavaScript, so the sport-games gate
only suppresses a repeat when the fingerprint is non-empty. -/

structure SportGamesGate where
  lastFp : String
  lastGamesPayload : Option String
deriving Repr

/-- One games arrival through the sport-games fingerprint gate: returns
whether a `games` payload is broadcast, and the updated group state. -/
def sportGamesGateStep (g : SportGamesGate) (fp payload : String) :
    Bool × SportGamesGate :=
  if fp ≠ "" ∧ fp = g.lastFp ∧ g.lastGamesPayload.isSome then
    (false, g)
  else
    (true, { lastFp := fp, lastGamesPayload := some payload })

structure GameGate where
  lastFp : String
  lastPayload : Option String
deriving Repr

/-- One game arrival through the per-game fingerprint gate. -/
def gameGateStep (g : GameGate) (fp payload : String) : Bool × GameGate :=
  if fp = g.lastFp ∧ g.lastPayload.isSome then
    (false, g)
  else
    (true, { lastFp := fp, lastPayload := some payload })

/-! ## Per-game odds cache gate
(src/unnamed/part_005 handleLiveSportOddsEmit, pollSportOddsGroup)

    const prev = group.oddsCache.get(idStr);
    const prevCount = typeof prev?.markets_count === 'number' ? Number(prev.markets_count) : null;
    const shouldEmit = !prev || prev.fp !== fp || (typeof prevCount === 'number' && prevCount !== marketsCount);
    if (shouldEmit) {
      group.oddsCache.set(idStr, { odds: oddsArr, markets_count: marketsCount, fp, updatedAtMs: now });
      updates.push({ gameId: gid, odds: ..., markets_count: marketsCount });
    } else {
      group.oddsCache.set(idStr, { ...prev, updatedAtMs: now, markets_count: marketsCount });
    }

Cache entries always store a numeric markets_count, so the
typeof-number guard on prevCount is always satisfied here. -/

/-- One produced odds outcome `{label, price, blocked}`. -/
structure OddsOutcome where
  label : String
  price : Option String
  blocked : Bool
deriving Repr, DecidableEq

/-- A per-game odds cache entry: last odds array (null allowed), market
count, content fingerprint, last-update timestamp. -/
structure OddsCacheEntry where
  odds : Option (List OddsOutcome)
  markets_count : Int
  fp : String
  updatedAtMs : Int
deriving Repr, DecidableEq

/-- One incoming per-game odds entry against the cache: returns whether
the entry is pushed into the emitted updates, and the new cache entry. -/
def oddsEmitStep (prev : Option OddsCacheEntry)
    (oddsArr : Option (List OddsOutcome)) (marketsCount : Int)
    (fp : String) (now : Int) : Bool × OddsCacheEntry :=
  match prev with
  | none => (true, ⟨oddsArr, marketsCount, fp, now⟩)
  | some p =>
      if p.fp ≠ fp ∨ p.markets_count ≠ marketsCount then
        (true, ⟨oddsArr, marketsCount, fp, now⟩)
      else
        (false, { p with updatedAtMs := now, markets_count := marketsCount })

/-- C3: a per-game odds entry is emitted iff the game has no cache
entry yet, or its odds fingerprint differs from the cached one, or its
markets_count differs from the cached one; when it is not emitted the
cache entry keeps its odds and fingerprint but refreshes its update
timestamp (and markets_count) so it ages correctly. -/
theorem odds_emit_gate_spec (prev : Option OddsCacheEntry)
    (oddsArr : Option (List OddsOutcome)) (mc : Int) (fp : String) (now : Int) :
    ((oddsEmitStep prev oddsArr mc fp now).1 = true
      ↔ prev = none ∨ ∃ p, prev = some p ∧ (p.fp ≠ fp ∨ p.markets_count ≠ mc))
    ∧ (∀ p, prev = some p → (oddsEmitStep prev oddsArr mc fp now).1 = false →
        (oddsEmitStep prev oddsArr mc fp now).2
          = { p with updatedAtMs := now, markets_count := mc })
    ∧ ((oddsEmitStep prev oddsArr mc fp now).1 = true →
        (oddsEmitStep prev oddsArr mc fp now).2 = ⟨oddsArr, mc, fp, now⟩) := by
  match prev with
  | none =>
      refine ⟨by simp [oddsEmitStep], ?_, ?_⟩
      · intro p hp
        cases hp
      · intro _
        simp [oddsEmitStep]
  | some p =>
      by_cases hc : p.fp ≠ fp ∨ p.markets_count ≠ mc
      · refine ⟨?_, ?_, ?_⟩
        · simp only [oddsEmitStep, if_pos hc]
          simp [hc]
        · intro q hq hfalse
          simp only [oddsEmitStep, if_pos hc] at hfalse
          cases hfalse
        · intro _
          simp [oddsEmitStep, if_pos hc]
      · refine ⟨?_, ?_, ?_⟩
        · simp only [oddsEmitStep, if_neg hc]
          simp only [not_or, not_not] at hc
          simp [hc]
        · intro q hq hfalse
          obtain rfl : p = q := by injection hq
          simp only [not_or, not_not] at hc
          simp [oddsEmitStep, hc]
        · intro htrue
          simp only [oddsEmitStep, if_neg hc] at htrue
          cases htrue

theorem odds_emit_gate_spec_witness :
    (oddsEmitStep (some ⟨none, 3, "f", 0⟩) none 3 "f" 99).2 = ⟨none, 3, "f", 99⟩
    ∧ (oddsEmitStep none none 2 "g" 5).2 = ⟨none, 2, "g", 5⟩ :=
  ⟨(odds_emit_gate_spec (some ⟨none, 3, "f", 0⟩) none 3 "f" 99).2.1
      ⟨none, 3, "f", 0⟩ rfl (by decide),
   (odds_emit_gate_spec none none 2 "g" 5).2.2 (by decide)⟩

/-- C1 counterexample.  Games kind: with the empty-string fingerprint
produced for an empty games list, the sport-games gate emits two
successive `games` payloads with equal (empty) fingerprints — the
second emission's fingerprint equals the group's last-sent
fingerprint.  Odds kind: the per-game odds gate re-emits an entry with
an unchanged fingerprint when only its markets_count changed, so two
successive `odds` entries for the same game can share a fingerprint. -/
theorem sportGames_empty_fp_cex :
    ((sportGamesGateStep ⟨"", none⟩ "" "p1").1 = true
      ∧ (sportGamesGateStep ⟨"", none⟩ "" "p1").2.lastFp = ""
      ∧ (sportGamesGateStep ⟨"", none⟩ "" "p1").2.lastGamesPayload.isSome = true
      ∧ (sportGamesGateStep (sportGamesGateStep ⟨"", none⟩ "" "p1").2 "" "p2").1 = true)
    ∧ ((oddsEmitStep (some ⟨none, 1, "f", 0⟩) none 2 "f" 5).1 = true
      ∧ (oddsEmitStep (some ⟨none, 1, "f", 0⟩) none 2 "f" 5).2.fp = "f") := by
  refine ⟨⟨?_, ?_, ?_, ?_⟩, ?_, ?_⟩ <;> first
    | simp [sportGamesGateStep]
    | decide

/-- C1 (amended): two successive payload-bearing emissions of the same
event kind to the same group differ in fingerprint, with two
exceptions forced by the code: the sport-games (`games`) gate re-emits
when the later fingerprint is the empty string (the empty games list
case), and the per-game odds (`odds`) gate re-emits a game's entry
whose fingerprint is unchanged when its markets_count changed — there
successive entries differ in fingerprint or in markets_count.  The
per-game (`game`) gate deduplicates every fingerprint value, the
empty string included. -/
theorem successive_emissions_fingerprint
    (g : SportGamesGate) (fp1 p1 fp2 p2 : String)
    (g' : GameGate) (fq1 q1 fq2 q2 : String)
    (prev : Option OddsCacheEntry)
    (oa1 oa2 : Option (List OddsOutcome)) (mc1 mc2 : Int)
    (fo1 fo2 : String) (n1 n2 : Int)
    (h1 : (sportGamesGateStep g fp1 p1).1 = true)
    (h2 : (sportGamesGateStep (sportGamesGateStep g fp1 p1).2 fp2 p2).1 = true)
    (h1' : (gameGateStep g' fq1 q1).1 = true)
    (h2' : (gameGateStep (gameGateStep g' fq1 q1).2 fq2 q2).1 = true)
    (h1o : (oddsEmitStep prev oa1 mc1 fo1 n1).1 = true)
    (h2o : (oddsEmitStep (some (oddsEmitStep prev oa1 mc1 fo1 n1).2)
        oa2 mc2 fo2 n2).1 = true) :
    (fp2 = "" ∨ fp2 ≠ fp1) ∧ fq2 ≠ fq1 ∧ (fo2 ≠ fo1 ∨ mc2 ≠ mc1) := by
  refine ⟨?_, ?_, ?_⟩
  · by_cases hemp : fp2 = ""
    · exact Or.inl hemp
    · refine Or.inr ?_
      intro heq
      have hst : (sportGamesGateStep g fp1 p1).2
          = { lastFp := fp1, lastGamesPayload := some p1 } := by
        unfold sportGamesGateStep at h1 ⊢
        by_cases hc : fp1 ≠ "" ∧ fp1 = g.lastFp ∧ g.lastGamesPayload.isSome
        · rw [if_pos hc] at h1
          exact absurd h1 (by simp)
        · rw [if_neg hc]
      rw [hst] at h2
      unfold sportGamesGateStep at h2
      rw [if_pos ⟨hemp, heq, by simp⟩] at h2
      exact absurd h2 (by simp)
  · intro heq
    have hst : (gameGateStep g' fq1 q1).2
        = { lastFp := fq1, lastPayload := some q1 } := by
      unfold gameGateStep at h1' ⊢
      by_cases hc : fq1 = g'.lastFp ∧ g'.lastPayload.isSome
      · rw [if_pos hc] at h1'
        exact absurd h1' (by simp)
      · rw [if_neg hc]
    rw [hst] at h2'
    unfold gameGateStep at h2'
    rw [if_pos ⟨heq, by simp⟩] at h2'
    exact absurd h2' (by simp)
  · have hst : (oddsEmitStep prev oa1 mc1 fo1 n1).2
        = ⟨oa1, mc1, fo1, n1⟩ := by
      match prev with
      | none => rfl
      | some p =>
          simp only [oddsEmitStep] at h1o ⊢
          by_cases hc : p.fp ≠ fo1 ∨ p.markets_count ≠ mc1
          · rw [if_pos hc]
          · rw [if_neg hc] at h1o
            exact absurd h1o (by simp)
    rw [hst] at h2o
    simp only [oddsEmitStep] at h2o
    by_cases hc : (⟨oa1, mc1, fo1, n1⟩ : OddsCacheEntry).fp ≠ fo2
        ∨ (⟨oa1, mc1, fo1, n1⟩ : OddsCacheEntry).markets_count ≠ mc2
    · rcases hc with hc | hc
      · exact Or.inl (Ne.symm hc)
      · exact Or.inr (Ne.symm hc)
    · rw [if_neg hc] at h2o
      exact absurd h2o (by simp)

theorem successive_emissions_fingerprint_witness :
    ("b" = "" ∨ ("b" : String) ≠ "a") ∧ ("y" : String) ≠ "x"
      ∧ (("f" : String) ≠ "f" ∨ (2 : Int) ≠ 1) :=
  successive_emissions_fingerprint
    ⟨"", none⟩ "a" "p1" "b" "p2" ⟨"", none⟩ "x" "q1" "y" "q2"
    none none none 1 2 "f" "f" 0 5
    (by simp [sportGamesGateStep]) (by simp [sportGamesGateStep])
    (by simp [gameGateStep]) (by simp [gameGateStep])
    (by decide) (by decide)

/-! ## Odds cache cleaning (src/unnamed/part_005 cleanOddsCache)

    const ODDS_CACHE_TTL_MS = 3600000; // 1 hour TTL
    const ODDS_CACHE_MAX_SIZE = 1000;  // Max entries per cache

    private cleanOddsCache(cache) {
      const now = Date.now();
      for (const [key, entry] of cache.entries()) {
        if (now - entry.updatedAtMs > ODDS_CACHE_TTL_MS) cache.delete(key);
      }
      if (cache.size > ODDS_CACHE_MAX_SIZE) {
        const entries = Array.from(cache.entries())
          .sort(([, a], [, b]) => a.updatedAtMs - b.updatedAtMs);
        const toRemove = cache.size - ODDS_CACHE_MAX_SIZE;
        for (let i = 0; i < toRemove; i++) cache.delete(entries[i][0]);
      }
    }

The model returns the retained entries; when the size eviction runs
they are listed in age order, which is irrelevant for a keyed map. -/

def ODDS_CACHE_TTL_MS : Int := 3600000

def ODDS_CACHE_MAX_SIZE : Nat := 1000

/-- Age ordering on cache entries (the JS sort comparator
`a.updatedAtMs - b.updatedAtMs`). -/
def oddsCacheLE (a b : String × OddsCacheEntry) : Prop :=
  a.2.updatedAtMs ≤ b.2.updatedAtMs

instance : DecidableRel oddsCacheLE :=
  fun a b => inferInstanceAs (Decidable (a.2.updatedAtMs ≤ b.2.updatedAtMs))

instance : IsTotal (String × OddsCacheEntry) oddsCacheLE :=
  ⟨fun a b => Int.le_total a.2.updatedAtMs b.2.updatedAtMs⟩

instance : IsTrans (String × OddsCacheEntry) oddsCacheLE :=
  ⟨fun _ _ _ hab hbc => le_trans hab hbc⟩

/-- First pass: drop entries whose age exceeds the TTL. -/
def ttlSurvivors (now : Int) (cache : List (String × OddsCacheEntry)) :
    List (String × OddsCacheEntry) :=
  cache.filter (fun e => decide (now - e.2.updatedAtMs ≤ ODDS_CACHE_TTL_MS))

/-- The cache-cleaning pass: TTL eviction, then oldest-first size
eviction down to `ODDS_CACHE_MAX_SIZE`. -/
def cleanOddsCache (now : Int) (cache : List (String × OddsCacheEntry)) :
    List (String × OddsCacheEntry) :=
  let afterTtl := ttlSurvivors now cache
  if afterTtl.length > ODDS_CACHE_MAX_SIZE then
    (List.insertionSort oddsCacheLE afterTtl).drop
      (afterTtl.length - ODDS_CACHE_MAX_SIZE)
  else
    afterTtl

/-- C4: after a cache-cleaning pass the cache holds at most
`ODDS_CACHE_MAX_SIZE` entries and no entry older than the TTL; when
TTL eviction leaves the cache over the limit, the entries removed are
exactly the oldest-by-update-time ones, and the size lands exactly at
the limit. -/
theorem cleanOddsCache_bounds (now : Int) (cache : List (String × OddsCacheEntry)) :
    (cleanOddsCache now cache).length ≤ ODDS_CACHE_MAX_SIZE
    ∧ (∀ e ∈ cleanOddsCache now cache, now - e.2.updatedAtMs ≤ ODDS_CACHE_TTL_MS)
    ∧ (∀ e ∈ cleanOddsCache now cache, ∀ d ∈ ttlSurvivors now cache,
        d ∉ cleanOddsCache now cache → d.2.updatedAtMs ≤ e.2.updatedAtMs)
    ∧ ((ttlSurvivors now cache).length > ODDS_CACHE_MAX_SIZE →
        (cleanOddsCache now cache).length = ODDS_CACHE_MAX_SIZE) := by
  set afterTtl := ttlSurvivors now cache with hA
  have hmem_ttl : ∀ e ∈ afterTtl, now - e.2.updatedAtMs ≤ ODDS_CACHE_TTL_MS := by
    intro e he
    have := (List.mem_filter.mp he).2
    simpa using this
  by_cases hover : afterTtl.length > ODDS_CACHE_MAX_SIZE
  · have hres : cleanOddsCache now cache
        = (List.insertionSort oddsCacheLE afterTtl).drop
            (afterTtl.length - ODDS_CACHE_MAX_SIZE) := by
      simp [cleanOddsCache, hover, hA]
    have hsortlen : (List.insertionSort oddsCacheLE afterTtl).length = afterTtl.length :=
      (List.perm_insertionSort oddsCacheLE afterTtl).length_eq
    have hlen : (cleanOddsCache now cache).length = ODDS_CACHE_MAX_SIZE := by
      rw [hres, List.length_drop, hsortlen]
      omega
    refine ⟨le_of_eq hlen, ?_, ?_, fun _ => hlen⟩
    · intro e he
      rw [hres] at he
      have : e ∈ List.insertionSort oddsCacheLE afterTtl :=
        List.mem_of_mem_drop he
      exact hmem_ttl e ((List.mem_insertionSort oddsCacheLE).mp this)
    · intro e he d hd hdnot
      rw [hres] at he hdnot
      set k := afterTtl.length - ODDS_CACHE_MAX_SIZE
      set sorted := List.insertionSort oddsCacheLE afterTtl with hS
      have hd' : d ∈ sorted := (List.mem_insertionSort oddsCacheLE).mpr hd
      have hdtake : d ∈ sorted.take k := by
        have := (List.take_append_drop k sorted) ▸ hd'
        rcases List.mem_append.mp this with h | h
        · exact h
        · exact absurd h hdnot
      have hpw : List.Pairwise oddsCacheLE sorted :=
        List.sorted_insertionSort oddsCacheLE afterTtl
      have hsplit : List.Pairwise oddsCacheLE (sorted.take k ++ sorted.drop k) := by
        rwa [List.take_append_drop]
      exact (List.pairwise_append.mp hsplit).2.2 d hdtake e he
  · have hres : cleanOddsCache now cache = afterTtl := by
      simp [cleanOddsCache, hover, hA]
    refine ⟨?_, ?_, ?_, ?_⟩
    · rw [hres]; omega
    · intro e he
      exact hmem_ttl e (hres ▸ he)
    · intro e he d hd hdnot
      exact absurd (hres ▸ hd) hdnot
    · intro h
      exact absurd h hover

theorem cleanOddsCache_bounds_witness :
    ("g", (⟨none, 1, "f", 4⟩ : OddsCacheEntry)) ∈
      cleanOddsCache 10 [("g", ⟨none, 1, "f", 4⟩)]
    ∧ (10 : Int) - 4 ≤ ODDS_CACHE_TTL_MS :=
  ⟨by decide,
   (cleanOddsCache_bounds 10 [("g", ⟨none, 1, "f", 4⟩)]).2.1
     ("g", ⟨none, 1, "f", 4⟩) (by decide)⟩

/-! ## Rolling 60-second message count
(src/unnamed/part_005 recordWsMessage / getWsMessagesLast60s)

    private wsMessageTimestampsBuffer: number[] = new Array(2000).fill(0);
    private wsMessageTimestampsIndex = 0;
    private wsMessageTimestampsCount = 0;

    private recordWsMessage(kind) {
      const now = Date.now();
      this.wsMessagesTotal += 1;
      this.wsMessageTimestampsBuffer[this.wsMessageTimestampsIndex] = now;
      this.wsMessageTimestampsIndex = (this.wsMessageTimestampsIndex + 1) % 2000;
      if (this.wsMessageTimestampsCount < 2000) this.wsMessageTimestampsCount++;
      ...
    }

    private getWsMessagesLast60s() {
      const now = Date.now();
      let count = 0;
      for (let i = 0; i < this.wsMessageTimestampsCount; i++) {
        const timestamp = this.wsMessageTimestampsBuffer[i];
        if (Number.isFinite(timestamp) && now - timestamp <= 60000) count++;
      }
      return count;
    }

Every scanned slot holds a recorded (finite) timestamp, so the
Number.isFinite guard is always satisfied. -/

structure WsRing where
  buffer : List Int
  index : Nat
  count : Nat
deriving Repr, DecidableEq

def initWsRing : WsRing := ⟨List.replicate 2000 0, 0, 0⟩

/-- Record one inbound message timestamp into the ring. -/
def recordWsMessage (r : WsRing) (now : Int) : WsRing :=
  { buffer := r.buffer.set r.index now
    index := (r.index + 1) % 2000
    count := if r.count < 2000 then r.count + 1 else r.count }

/-- The reported rolling 60-second message count. -/
def getWsMessagesLast60s (r : WsRing) (now : Int) : Nat :=
  ((r.buffer.take r.count).filter (fun t => decide (now - t ≤ 60000))).length

/-- The ring state after recording the timestamps of `ts` in order. -/
def runRecords (ts : List Int) : WsRing := ts.foldl recordWsMessage initWsRing

/-- Closed form of the ring state: the buffer holds the most recent
2000 timestamps (rotated so the oldest sits at the write index),
padded with zeroes while fewer than 2000 have been recorded. -/
def ringSpec (ts : List Int) : WsRing :=
  if ts.length < 2000 then
    ⟨ts ++ List.replicate (2000 - ts.length) 0, ts.length, ts.length⟩
  else
    ⟨(ts.drop (ts.length - 2000)).drop (2000 - ts.length % 2000)
       ++ (ts.drop (ts.length - 2000)).take (2000 - ts.length % 2000),
     ts.length % 2000, 2000⟩

theorem set_append_idx (l1 l2 : List Int) (a : Int) (i : Nat) (h : i = l1.length) :
    (l1 ++ l2).set i a = l1 ++ l2.set 0 a := by
  subst h
  induction l1 with
  | nil => simp
  | cons hd tl ih => simp [List.set, ih]

theorem runRecords_eq_ringSpec (ts : List Int) : runRecords ts = ringSpec ts := by
  induction ts using List.reverseRecOn with
  | nil =>
      rw [show ringSpec [] = ⟨List.replicate 2000 0, 0, 0⟩ by
        unfold ringSpec
        rw [if_pos (by simp : ([] : List Int).length < 2000)]
        rw [List.nil_append, List.length_nil, Nat.sub_zero]]
      rfl
  | append_singleton ts t ih =>
      have hstep : runRecords (ts ++ [t]) = recordWsMessage (runRecords ts) t := by
        simp [runRecords]
      have hlen1 : (ts ++ [t]).length = ts.length + 1 := by simp
      rw [hstep, ih]
      rcases Nat.lt_or_ge ts.length 2000 with hlt | hge
      · -- under capacity: the write appends at position n
        have hL : recordWsMessage (ringSpec ts) t
            = ⟨(ts ++ List.replicate (2000 - ts.length) 0).set ts.length t,
               (ts.length + 1) % 2000, ts.length + 1⟩ := by
          rw [show ringSpec ts
              = ⟨ts ++ List.replicate (2000 - ts.length) 0, ts.length, ts.length⟩ by
            unfold ringSpec
            rw [if_pos hlt]]
          unfold recordWsMessage
          rw [if_pos hlt]
        have hbuf : (ts ++ List.replicate (2000 - ts.length) 0).set ts.length t
            = (ts ++ [t]) ++ List.replicate (2000 - (ts.length + 1)) 0 := by
          rw [set_append_idx _ _ _ _ rfl]
          rw [show 2000 - ts.length = (2000 - (ts.length + 1)) + 1 by omega,
              List.replicate_succ]
          simp [List.set]
        rw [hL, hbuf]
        rcases Nat.lt_or_ge (ts.length + 1) 2000 with h1 | h1
        · have hmod1 : (ts.length + 1) % 2000 = ts.length + 1 := Nat.mod_eq_of_lt h1
          rw [show ringSpec (ts ++ [t])
              = ⟨(ts ++ [t]) ++ List.replicate (2000 - (ts ++ [t]).length) 0,
                 (ts ++ [t]).length, (ts ++ [t]).length⟩ by
            unfold ringSpec
            rw [if_pos (by rw [hlen1]; omega : (ts ++ [t]).length < 2000)]]
          rw [hlen1, hmod1]
        · have h2000 : ts.length + 1 = 2000 := by omega
          have hxlen : (ts ++ [t]).length = 2000 := by rw [hlen1, h2000]
          have hRHS : ringSpec (ts ++ [t]) = ⟨ts ++ [t], 0, 2000⟩ := by
            unfold ringSpec
            rw [if_neg (by rw [hxlen]; omega : ¬ (ts ++ [t]).length < 2000), hxlen,
                Nat.mod_self, Nat.sub_zero, Nat.sub_self, List.drop_zero,
                List.drop_eq_nil_of_le (le_of_eq hxlen),
                List.take_of_length_le (le_of_eq hxlen), List.nil_append]
          rw [hRHS, show (2000 : Nat) - (ts.length + 1) = 0 by omega,
              show List.replicate 0 (0 : Int) = [] from rfl, List.append_nil,
              show (ts.length + 1) % 2000 = 0 by omega, h2000]
      · -- at capacity: the write overwrites the oldest slot
        have hsuffix_len : (ts.drop (ts.length - 2000)).length = 2000 := by
          rw [List.length_drop]
          omega
        obtain ⟨s0, srest, hsuffix⟩ :
            ∃ s0 srest, ts.drop (ts.length - 2000) = s0 :: srest := by
          cases hd : ts.drop (ts.length - 2000) with
          | nil =>
              rw [hd] at hsuffix_len
              simp only [List.length_nil] at hsuffix_len
              omega
          | cons a l => exact ⟨a, l, rfl⟩
        have hsrest_len : srest.length = 1999 := by
          rw [hsuffix] at hsuffix_len
          simp only [List.length_cons] at hsuffix_len
          omega
        have hsrest : srest = ts.drop (ts.length - 1999) := by
          have h1 : (ts.drop (ts.length - 2000)).drop 1 = srest := by
            rw [hsuffix]
            rfl
          rw [List.drop_drop] at h1
          rw [show ts.length - 2000 + 1 = ts.length - 1999 by omega] at h1
          exact h1.symm
        have hsuffix' : (ts ++ [t]).drop ((ts ++ [t]).length - 2000) = srest ++ [t] := by
          rw [hlen1, show ts.length + 1 - 2000 = ts.length - 1999 by omega,
              List.drop_append_of_le_length (by omega), hsrest]
        set r := ts.length % 2000 with hr
        have hrlt : r < 2000 := by omega
        have hL : recordWsMessage (ringSpec ts) t
            = ⟨((s0 :: srest).drop (2000 - r)
                  ++ (s0 :: srest).take (2000 - r)).set r t,
               (r + 1) % 2000, 2000⟩ := by
          rw [show ringSpec ts
              = ⟨(s0 :: srest).drop (2000 - r) ++ (s0 :: srest).take (2000 - r),
                 r, 2000⟩ by
            unfold ringSpec
            rw [if_neg (by omega : ¬ ts.length < 2000), hsuffix, ← hr]]
          unfold recordWsMessage
          rw [if_neg (by omega : ¬ (2000 : Nat) < 2000)]
        have hdroplen : ((s0 :: srest).drop (2000 - r)).length = r := by
          rw [List.length_drop]
          simp only [List.length_cons, hsrest_len]
          omega
        have hset : ((s0 :: srest).drop (2000 - r)
              ++ (s0 :: srest).take (2000 - r)).set r t
            = (s0 :: srest).drop (2000 - r) ++ t :: srest.take (1999 - r) := by
          rw [set_append_idx _ _ _ _ hdroplen.symm]
          rw [show 2000 - r = (1999 - r) + 1 by omega, List.take_succ_cons]
          simp [List.set]
        have hdrop1 : (s0 :: srest).drop (2000 - r) = srest.drop (1999 - r) := by
          rw [show 2000 - r = (1999 - r) + 1 by omega, List.drop_succ_cons]
        have hRHSa : ringSpec (ts ++ [t])
            = ⟨(srest ++ [t]).drop (2000 - (r + 1) % 2000)
                 ++ (srest ++ [t]).take (2000 - (r + 1) % 2000),
               (r + 1) % 2000, 2000⟩ := by
          have hmod2 : (ts ++ [t]).length % 2000 = (r + 1) % 2000 := by
            rw [hlen1]
            omega
          unfold ringSpec
          rw [if_neg (by rw [hlen1]; omega : ¬ (ts ++ [t]).length < 2000),
              hsuffix', hmod2]
        rw [hL, hset, hdrop1, hRHSa]
        rcases Nat.lt_or_ge (r + 1) 2000 with h1 | h1
        · have hd2 : (srest ++ [t]).drop (2000 - (r + 1))
              = srest.drop (1999 - r) ++ [t] := by
            rw [show (2000 : Nat) - (r + 1) = 1999 - r by omega,
                List.drop_append_of_le_length (by omega)]
          have ht2 : (srest ++ [t]).take (2000 - (r + 1))
              = srest.take (1999 - r) := by
            rw [show (2000 : Nat) - (r + 1) = 1999 - r by omega,
                List.take_append_of_le_length (by omega)]
          rw [Nat.mod_eq_of_lt h1, hd2, ht2, List.append_assoc,
              List.singleton_append]
        · have hreq : r = 1999 := by omega
          have hm0 : (r + 1) % 2000 = 0 := by omega
          have hlen2 : (srest ++ [t]).length = 2000 := by
            rw [List.length_append, hsrest_len]
            rfl
          rw [hm0, Nat.sub_zero, List.drop_eq_nil_of_le (le_of_eq hlen2),
              List.take_of_length_le (le_of_eq hlen2), List.nil_append, hreq,
              Nat.sub_self, List.drop_zero, List.take_zero]

theorem getWs_struct (b : List Int) (i c : Nat) (now : Int) :
    getWsMessagesLast60s ⟨b, i, c⟩ now
      = ((b.take c).filter (fun x => decide (now - x ≤ 60000))).length := rfl

theorem getWs_eq_filter_drop (ts : List Int) (now : Int) :
    getWsMessagesLast60s (runRecords ts) now
      = ((ts.drop (ts.length - 2000)).filter
          (fun x => decide (now - x ≤ 60000))).length := by
  rw [runRecords_eq_ringSpec]
  unfold ringSpec
  rcases Nat.lt_or_ge ts.length 2000 with hlt | hge
  · rw [if_pos hlt, getWs_struct]
    rw [List.take_append_of_le_length (le_refl _), List.take_length]
    rw [show ts.length - 2000 = 0 by omega, List.drop_zero]
  · rw [if_neg (by omega : ¬ ts.length < 2000), getWs_struct]
    have hslen : (ts.drop (ts.length - 2000)).length = 2000 := by
      rw [List.length_drop]
      omega
    have hblen : ((ts.drop (ts.length - 2000)).drop (2000 - ts.length % 2000)
        ++ (ts.drop (ts.length - 2000)).take (2000 - ts.length % 2000)).length
          = 2000 := by
      rw [List.length_append, List.length_drop, List.length_take, hslen]
      have hm : ts.length % 2000 < 2000 := by omega
      omega
    rw [List.take_of_length_le (le_of_eq hblen)]
    have hperm : List.Perm
        ((ts.drop (ts.length - 2000)).drop (2000 - ts.length % 2000)
          ++ (ts.drop (ts.length - 2000)).take (2000 - ts.length % 2000))
        (ts.drop (ts.length - 2000)) :=
      (List.perm_append_comm).trans
        (List.take_append_drop _ _ ▸ List.Perm.refl _)
    rw [(hperm.filter _).length_eq]

/-- C5: the reported rolling 60-second count equals the exact number of
recorded timestamps in the window `[now - 60 s, now]` while at most
2000 messages have been observed; beyond that it counts the window
hits among the 2000 most recent timestamps, hence is bounded by 2000
and never exceeds the true count.  (Timestamps are recorded at or
before the reading time `now`.) -/
theorem ws_rolling_count_spec (ts : List Int) (now : Int)
    (hmono : ∀ t ∈ ts, t ≤ now) :
    (getWsMessagesLast60s (runRecords ts) now
        = ((ts.drop (ts.length - 2000)).filter
            (fun x => decide (now - 60000 ≤ x ∧ x ≤ now))).length)
    ∧ (ts.length ≤ 2000 →
        getWsMessagesLast60s (runRecords ts) now
          = (ts.filter (fun x => decide (now - 60000 ≤ x ∧ x ≤ now))).length)
    ∧ getWsMessagesLast60s (runRecords ts) now ≤ 2000
    ∧ getWsMessagesLast60s (runRecords ts) now
        ≤ (ts.filter (fun x => decide (now - 60000 ≤ x ∧ x ≤ now))).length := by
  have hfc : ∀ l : List Int, (∀ x ∈ l, x ∈ ts) →
      l.filter (fun x => decide (now - x ≤ 60000))
        = l.filter (fun x => decide (now - 60000 ≤ x ∧ x ≤ now)) := by
    intro l hl
    apply List.filter_congr
    intro a ha
    have h1 := hmono a (hl a ha)
    rw [decide_eq_decide]
    omega
  have hmain := getWs_eq_filter_drop ts now
  rw [hfc _ (fun x hx => List.mem_of_mem_drop hx)] at hmain
  refine ⟨hmain, ?_, ?_, ?_⟩
  · intro hle
    rw [hmain, show ts.length - 2000 = 0 by omega, List.drop_zero]
  · rw [hmain]
    calc ((ts.drop (ts.length - 2000)).filter
            (fun x => decide (now - 60000 ≤ x ∧ x ≤ now))).length
        ≤ (ts.drop (ts.length - 2000)).length := List.length_filter_le _ _
      _ ≤ 2000 := by
          rw [List.length_drop]
          omega
  · rw [hmain]
    exact ((List.drop_sublist _ _).filter _).length_le

theorem ws_rolling_count_spec_witness :
    getWsMessagesLast60s (runRecords [1, 2]) 2
      = (([1, 2] : List Int).filter
          (fun x => decide ((2 : Int) - 60000 ≤ x ∧ x ≤ 2))).length :=
  (ws_rolling_count_spec [1, 2] 2 (by decide)).2.1 (by simp)

/-! ## Broadcaster (src/unnamed/part_005 broadcast, SwarmHubDO.ts broadcast)

    private async broadcast(clients: Map<string, Client>, bytes) {
      const dead: string[] = [];
      for (const [id, client] of clients.entries()) {
        if (client.abortSignal.aborted) { dead.push(id); continue; }
        try { await client.writer.write(bytes); } catch { dead.push(id); }
      }
      for (const id of dead) { ...client.writer.close()...; clients.delete(id); }
    }

A client is modelled by whether its cancellation signal is set and
whether writing this frame to it succeeds.  The model returns the
clients the frame was delivered to and the subscriber map after the
dead-pruning loop. -/

structure Client where
  id : String
  aborted : Bool
  writeOk : Bool
deriving Repr, DecidableEq

/-- One broadcast of a frame to a subscriber set: first component is
the list of clients whose write succeeded (the loop attempts a write
to every non-aborted client, regardless of earlier failures), second
is the subscriber set after the dead ids are deleted. -/
def broadcast (clients : List Client) : List Client × List Client :=
  let dead := (clients.filter (fun c => c.aborted || !c.writeOk)).map Client.id
  (clients.filter (fun c => !c.aborted && c.writeOk),
   clients.filter (fun c => decide (c.id ∉ dead)))

/-- C6: a subscriber whose write fails or whose cancellation signal is
set is removed from the set, while every other subscriber of the same
group is still written the frame and remains in the set — a failing
subscriber never prevents delivery to the others. -/
theorem broadcast_write_isolation (clients : List Client)
    (hnodup : (clients.map Client.id).Nodup) (c : Client) (hc : c ∈ clients) :
    ((c.aborted = true ∨ c.writeOk = false) → c ∉ (broadcast clients).2)
    ∧ (c.aborted = false → c.writeOk = true →
        c ∈ (broadcast clients).1 ∧ c ∈ (broadcast clients).2) := by
  constructor
  · intro hbad hmem
    have hdead : c.id ∈ (clients.filter
        (fun c => c.aborted || !c.writeOk)).map Client.id := by
      refine List.mem_map.mpr ⟨c, ?_, rfl⟩
      refine List.mem_filter.mpr ⟨hc, ?_⟩
      rcases hbad with h | h <;> simp [h]
    have := (List.mem_filter.mp hmem).2
    simp only [decide_eq_true_eq] at this
    exact this hdead
  · intro hab hok
    constructor
    · exact List.mem_filter.mpr ⟨hc, by simp [hab, hok]⟩
    · refine List.mem_filter.mpr ⟨hc, ?_⟩
      simp only [decide_eq_true_eq]
      intro hdead
      obtain ⟨c', hc'mem, hc'id⟩ := List.mem_map.mp hdead
      have hc'cl : c' ∈ clients := (List.mem_filter.mp hc'mem).1
      have hc'bad := (List.mem_filter.mp hc'mem).2
      have : c' = c := List.inj_on_of_nodup_map hnodup hc'cl hc hc'id
      subst this
      rw [hab, hok] at hc'bad
      simp at hc'bad

theorem broadcast_write_isolation_witness :
    (⟨"a", false, true⟩ : Client) ∈
        (broadcast [⟨"a", false, true⟩, ⟨"b", true, true⟩, ⟨"c", false, false⟩]).1
    ∧ (⟨"a", false, true⟩ : Client) ∈
        (broadcast [⟨"a", false, true⟩, ⟨"b", true, true⟩, ⟨"c", false, false⟩]).2 :=
  (broadcast_write_isolation
    [⟨"a", false, true⟩, ⟨"b", true, true⟩, ⟨"c", false, false⟩]
    (by decide) ⟨"a", false, true⟩ (by decide)).2 rfl rfl

/-! ## Attach-time replay
(src/unnamed/part_005 handleSportStream, handleLiveGameStream)

handleSportStream writes, to the freshly attached subscriber only:

    await writer.write(encodeSseComment(' '.repeat(2048)));
    await writer.write(encodeSseComment(`ready ...`));
    if (mode === 'live') {
      if (initialCountsPayload) writer.write(encodeSseEvent('counts', ...));
      if (initialPrematchCountsPayload) writer.write(encodeSseEvent('prematch_counts', ...));
    }
    if (initialGamesPayload) writer.write(encodeSseEvent('games', ...));
    if (initialOddsPayload) writer.write(encodeSseEvent('odds', ...));

handleLiveGameStream writes the padding comment, the ready comment and
the retained `game` payload, then starts the group.  Subsequent live
emissions reach the subscriber only through `broadcast`.  Per the
concurrency model (sequential ordering per group), an attach and its
replay writes form one group operation; the trace model below makes
every hub operation atomic. -/

inductive Frame where
  | comment (text : String)
  | event (name : String) (data : String)
deriving Repr, DecidableEq

inductive StreamMode where
  | live
  | prematch
deriving Repr, DecidableEq

/-- The retained per-group payloads a sport-stream group replays on
attach. -/
structure SportRetained where
  countsLivePayload : Option String
  countsPrematchPayload : Option String
  lastGamesPayload : Option String
  lastOddsPayload : Option String
deriving Repr, DecidableEq

/-- A retained payload becomes one named SSE event frame; an absent
payload contributes nothing. -/
def optFrame (name : String) : Option String → List Frame
  | some d => [Frame.event name d]
  | none => []

/-- The ~2 KiB anti-buffering padding comment text. -/
def paddingText : String := String.mk (List.replicate 2048 ' ')

/-- The frames handleSportStream writes to a new subscriber, in order. -/
def sportAttachReplay (mode : StreamMode) (ret : SportRetained) (now : Int) :
    List Frame :=
  Frame.comment paddingText ::
  Frame.comment s!"ready {now}" ::
  ((if mode = StreamMode.live then
      optFrame "counts" ret.countsLivePayload
        ++ optFrame "prematch_counts" ret.countsPrematchPayload
    else [])
   ++ optFrame "games" ret.lastGamesPayload
   ++ optFrame "odds" ret.lastOddsPayload)

/-- The frames handleLiveGameStream writes to a new subscriber. -/
def gameAttachReplay (lastPayload : Option String) (now : Int) : List Frame :=
  Frame.comment paddingText ::
  Frame.comment s!"ready {now}" ::
  optFrame "game" lastPayload

/-- Group operations after an attach: further attaches, payload
emissions (which also refresh the retained payloads) and heartbeat
comments. -/
inductive HubOp where
  | attach (id : String) (now : Int)
  | emitGames (p : String)
  | emitOdds (p : String)
  | emitCounts (p : String)
  | emitPrematchCounts (p : String)
  | heartbeat (text : String)
deriving Repr, DecidableEq

/-- A sport-stream group: its mode, retained payloads, and the byte
log written so far to each attached subscriber. -/
structure SportHub where
  mode : StreamMode
  retained : SportRetained
  subs : List (String × List Frame)
deriving Repr, DecidableEq

/-- One atomic group operation.  Counts fan out to live-mode groups
only (broadcastAllLiveGroups). -/
def applyHubOp (h : SportHub) : HubOp → SportHub
  | HubOp.attach id now =>
      { h with subs := (id, sportAttachReplay h.mode h.retained now) :: h.subs }
  | HubOp.emitGames p =>
      { h with
          retained := { h.retained with lastGamesPayload := some p },
          subs := h.subs.map (fun s => (s.1, s.2 ++ [Frame.event "games" p])) }
  | HubOp.emitOdds p =>
      { h with
          retained := { h.retained with lastOddsPayload := some p },
          subs := h.subs.map (fun s => (s.1, s.2 ++ [Frame.event "odds" p])) }
  | HubOp.emitCounts p =>
      { h with
          retained := { h.retained with countsLivePayload := some p },
          subs :=
            if h.mode = StreamMode.live then
              h.subs.map (fun s => (s.1, s.2 ++ [Frame.event "counts" p]))
            else h.subs }
  | HubOp.emitPrematchCounts p =>
      { h with
          retained := { h.retained with countsPrematchPayload := some p },
          subs :=
            if h.mode = StreamMode.live then
              h.subs.map (fun s => (s.1, s.2 ++ [Frame.event "prematch_counts" p]))
            else h.subs }
  | HubOp.heartbeat text =>
      { h with subs := h.subs.map (fun s => (s.1, s.2 ++ [Frame.comment text])) }

def runHub (h : SportHub) (ops : List HubOp) : SportHub := ops.foldl applyHubOp h

/-- The frame an operation appends to the log of an already-attached
subscriber of a group in the given mode, if any. -/
def liveFrameOf (mode : StreamMode) : HubOp → Option Frame
  | HubOp.attach _ _ => none
  | HubOp.emitGames p => some (Frame.event "games" p)
  | HubOp.emitOdds p => some (Frame.event "odds" p)
  | HubOp.emitCounts p =>
      if mode = StreamMode.live then some (Frame.event "counts" p) else none
  | HubOp.emitPrematchCounts p =>
      if mode = StreamMode.live then some (Frame.event "prematch_counts" p) else none
  | HubOp.heartbeat text => some (Frame.comment text)

def opFrames (mode : StreamMode) (ops : List HubOp) : List Frame :=
  ops.filterMap (liveFrameOf mode)

def lookupLog : List (String × List Frame) → String → Option (List Frame)
  | [], _ => none
  | (i, l) :: rest, id => if i = id then some l else lookupLog rest id

theorem lookupLog_map_append (subs : List (String × List Frame)) (id : String)
    (fr : Frame) :
    lookupLog (subs.map (fun s => (s.1, s.2 ++ [fr]))) id
      = (lookupLog subs id).map (fun l => l ++ [fr]) := by
  induction subs with
  | nil => simp [lookupLog]
  | cons hd rest ih =>
      obtain ⟨i, l⟩ := hd
      by_cases hi : i = id
      · simp [lookupLog, hi]
      · simp [lookupLog, hi, ih]

theorem runHub_log (ops : List HubOp) :
    ∀ (h : SportHub) (id : String) (l : List Frame),
    (∀ op ∈ ops, ∀ n, op ≠ HubOp.attach id n) →
    lookupLog h.subs id = some l →
    lookupLog (runHub h ops).subs id = some (l ++ opFrames h.mode ops) := by
  induction ops with
  | nil =>
      intro h id l _ hl
      simpa [runHub, opFrames] using hl
  | cons op rest ih =>
      intro h id l hfresh hl
      have hfresh' : ∀ o ∈ rest, ∀ n, o ≠ HubOp.attach id n :=
        fun o ho n => hfresh o (List.mem_cons_of_mem _ ho) n
      have hrun : runHub h (op :: rest) = runHub (applyHubOp h op) rest := by
        simp [runHub]
      rw [hrun]
      cases op with
      | attach id' n' =>
          have hne : id' ≠ id := by
            intro hh
            exact hfresh (HubOp.attach id' n') (List.mem_cons_self _ _) n'
              (by rw [hh])
          have hl' : lookupLog (applyHubOp h (HubOp.attach id' n')).subs id = some l := by
            simpa [applyHubOp, lookupLog, hne] using hl
          have := ih (applyHubOp h (HubOp.attach id' n')) id l hfresh' hl'
          simpa [applyHubOp, opFrames, liveFrameOf] using this
      | emitGames p =>
          have hl' : lookupLog (applyHubOp h (HubOp.emitGames p)).subs id
              = some (l ++ [Frame.event "games" p]) := by
            simp [applyHubOp, lookupLog_map_append, hl]
          have := ih _ id _ hfresh' hl'
          simpa [applyHubOp, opFrames, liveFrameOf, List.append_assoc] using this
      | emitOdds p =>
          have hl' : lookupLog (applyHubOp h (HubOp.emitOdds p)).subs id
              = some (l ++ [Frame.event "odds" p]) := by
            simp [applyHubOp, lookupLog_map_append, hl]
          have := ih _ id _ hfresh' hl'
          simpa [applyHubOp, opFrames, liveFrameOf, List.append_assoc] using this
      | emitCounts p =>
          cases hm : h.mode with
          | live =>
              have hl' : lookupLog (applyHubOp h (HubOp.emitCounts p)).subs id
                  = some (l ++ [Frame.event "counts" p]) := by
                simp [applyHubOp, hm, lookupLog_map_append, hl]
              have := ih _ id _ hfresh' hl'
              simpa [applyHubOp, opFrames, liveFrameOf, hm, List.append_assoc]
                using this
          | prematch =>
              have hl' : lookupLog (applyHubOp h (HubOp.emitCounts p)).subs id
                  = some l := by
                simp [applyHubOp, hm, hl]
              have := ih _ id _ hfresh' hl'
              simpa [applyHubOp, opFrames, liveFrameOf, hm] using this
      | emitPrematchCounts p =>
          cases hm : h.mode with
          | live =>
              have hl' : lookupLog (applyHubOp h (HubOp.emitPrematchCounts p)).subs id
                  = some (l ++ [Frame.event "prematch_counts" p]) := by
                simp [applyHubOp, hm, lookupLog_map_append, hl]
              have := ih _ id _ hfresh' hl'
              simpa [applyHubOp, opFrames, liveFrameOf, hm, List.append_assoc]
                using this
          | prematch =>
              have hl' : lookupLog (applyHubOp h (HubOp.emitPrematchCounts p)).subs id
                  = some l := by
                simp [applyHubOp, hm, hl]
              have := ih _ id _ hfresh' hl'
              simpa [applyHubOp, opFrames, liveFrameOf, hm] using this
      | heartbeat text =>
          have hl' : lookupLog (applyHubOp h (HubOp.heartbeat text)).subs id
              = some (l ++ [Frame.comment text]) := by
            simp [applyHubOp, lookupLog_map_append, hl]
          have := ih _ id _ hfresh' hl'
          simpa [applyHubOp, opFrames, liveFrameOf, List.append_assoc] using this

/-- Per-game group operations after an attach: further attaches,
`game` emissions (handleLiveGameEmit / pollGameGroup, which also
refresh the retained payload) and heartbeat comments. -/
inductive GameHubOp where
  | attach (id : String) (now : Int)
  | emitGame (p : String)
  | heartbeat (text : String)
deriving Repr, DecidableEq

/-- A per-game stream group: its retained payload and the log written
so far to each attached subscriber. -/
structure GameHub where
  lastPayload : Option String
  subs : List (String × List Frame)
deriving Repr, DecidableEq

def applyGameHubOp (h : GameHub) : GameHubOp → GameHub
  | GameHubOp.attach id now =>
      { h with subs := (id, gameAttachReplay h.lastPayload now) :: h.subs }
  | GameHubOp.emitGame p =>
      { lastPayload := some p,
        subs := h.subs.map (fun s => (s.1, s.2 ++ [Frame.event "game" p])) }
  | GameHubOp.heartbeat text =>
      { h with subs := h.subs.map (fun s => (s.1, s.2 ++ [Frame.comment text])) }

def runGameHub (h : GameHub) (ops : List GameHubOp) : GameHub :=
  ops.foldl applyGameHubOp h

/-- The frame a per-game operation appends to an already-attached
subscriber's log, if any. -/
def gameFrameOf : GameHubOp → Option Frame
  | GameHubOp.attach _ _ => none
  | GameHubOp.emitGame p => some (Frame.event "game" p)
  | GameHubOp.heartbeat text => some (Frame.comment text)

def gameOpFrames (ops : List GameHubOp) : List Frame :=
  ops.filterMap gameFrameOf

theorem runGameHub_log (ops : List GameHubOp) :
    ∀ (h : GameHub) (id : String) (l : List Frame),
    (∀ op ∈ ops, ∀ n, op ≠ GameHubOp.attach id n) →
    lookupLog h.subs id = some l →
    lookupLog (runGameHub h ops).subs id = some (l ++ gameOpFrames ops) := by
  induction ops with
  | nil =>
      intro h id l _ hl
      simpa [runGameHub, gameOpFrames] using hl
  | cons op rest ih =>
      intro h id l hfresh hl
      have hfresh' : ∀ o ∈ rest, ∀ n, o ≠ GameHubOp.attach id n :=
        fun o ho n => hfresh o (List.mem_cons_of_mem _ ho) n
      have hrun : runGameHub h (op :: rest) = runGameHub (applyGameHubOp h op) rest := by
        simp [runGameHub]
      rw [hrun]
      cases op with
      | attach id' n' =>
          have hne : id' ≠ id := by
            intro hh
            exact hfresh (GameHubOp.attach id' n') (List.mem_cons_self _ _) n'
              (by rw [hh])
          have hl' : lookupLog (applyGameHubOp h (GameHubOp.attach id' n')).subs id
              = some l := by
            simpa [applyGameHubOp, lookupLog, hne] using hl
          have := ih (applyGameHubOp h (GameHubOp.attach id' n')) id l hfresh' hl'
          simpa [gameOpFrames, gameFrameOf] using this
      | emitGame p =>
          have hl' : lookupLog (applyGameHubOp h (GameHubOp.emitGame p)).subs id
              = some (l ++ [Frame.event "game" p]) := by
            simp [applyGameHubOp, lookupLog_map_append, hl]
          have := ih _ id _ hfresh' hl'
          simpa [gameOpFrames, gameFrameOf, List.append_assoc] using this
      | heartbeat text =>
          have hl' : lookupLog (applyGameHubOp h (GameHubOp.heartbeat text)).subs id
              = some (l ++ [Frame.comment text]) := by
            simp [applyGameHubOp, lookupLog_map_append, hl]
          have := ih _ id _ hfresh' hl'
          simpa [gameOpFrames, gameFrameOf, List.append_assoc] using this

/-- C7: a new subscriber's received frames start with the padding
comment, then the ready comment, then the group's retained payloads in
order (counts payloads for live mode, then games, then odds, each when
present; just the game payload for a per-game group), and — for sport
groups and per-game groups alike — this attach replay precedes every
frame produced by subsequent group operations. -/
theorem attach_replay_order (h : SportHub) (id : String) (now : Int)
    (ops : List HubOp)
    (hg : GameHub) (id2 : String) (now2 : Int) (ops2 : List GameHubOp)
    (hfresh : ∀ op ∈ ops, ∀ n, op ≠ HubOp.attach id n)
    (hfresh2 : ∀ op ∈ ops2, ∀ n, op ≠ GameHubOp.attach id2 n) :
    lookupLog (runHub (applyHubOp h (HubOp.attach id now)) ops).subs id
      = some (sportAttachReplay h.mode h.retained now ++ opFrames h.mode ops)
    ∧ lookupLog
        (runGameHub (applyGameHubOp hg (GameHubOp.attach id2 now2)) ops2).subs id2
      = some (gameAttachReplay hg.lastPayload now2 ++ gameOpFrames ops2)
    ∧ sportAttachReplay h.mode h.retained now
        = Frame.comment paddingText :: Frame.comment s!"ready {now}" ::
          ((if h.mode = StreamMode.live then
              optFrame "counts" h.retained.countsLivePayload
                ++ optFrame "prematch_counts" h.retained.countsPrematchPayload
            else [])
           ++ optFrame "games" h.retained.lastGamesPayload
           ++ optFrame "odds" h.retained.lastOddsPayload)
    ∧ gameAttachReplay hg.lastPayload now2
        = Frame.comment paddingText :: Frame.comment s!"ready {now2}" ::
          optFrame "game" hg.lastPayload := by
  refine ⟨?_, ?_, rfl, rfl⟩
  · have hl : lookupLog (applyHubOp h (HubOp.attach id now)).subs id
        = some (sportAttachReplay h.mode h.retained now) := by
      simp [applyHubOp, lookupLog]
    have := runHub_log ops (applyHubOp h (HubOp.attach id now)) id
      (sportAttachReplay h.mode h.retained now) hfresh hl
    simpa [applyHubOp] using this
  · have hl : lookupLog (applyGameHubOp hg (GameHubOp.attach id2 now2)).subs id2
        = some (gameAttachReplay hg.lastPayload now2) := by
      simp [applyGameHubOp, lookupLog]
    exact runGameHub_log ops2 (applyGameHubOp hg (GameHubOp.attach id2 now2)) id2
      (gameAttachReplay hg.lastPayload now2) hfresh2 hl

theorem attach_replay_order_witness :
    lookupLog
      (runHub
        (applyHubOp
          ⟨StreamMode.live, ⟨some "cl", none, some "g0", none⟩, []⟩
          (HubOp.attach "s1" 7))
        [HubOp.emitGames "g1"]).subs "s1"
      = some (sportAttachReplay StreamMode.live ⟨some "cl", none, some "g0", none⟩ 7
          ++ opFrames StreamMode.live [HubOp.emitGames "g1"])
    ∧ lookupLog
        (runGameHub (applyGameHubOp ⟨some "gp", []⟩ (GameHubOp.attach "s2" 9))
          [GameHubOp.emitGame "gp2"]).subs "s2"
      = some (gameAttachReplay (some "gp") 9
          ++ gameOpFrames [GameHubOp.emitGame "gp2"]) :=
  have hthm := attach_replay_order
    ⟨StreamMode.live, ⟨some "cl", none, some "g0", none⟩, []⟩ "s1" 7
    [HubOp.emitGames "g1"]
    ⟨some "gp", []⟩ "s2" 9 [GameHubOp.emitGame "gp2"]
    (by
      intro op hop n
      rcases List.mem_singleton.mp hop with rfl
      simp)
    (by
      intro op hop n
      rcases List.mem_singleton.mp hop with rfl
      simp)
  ⟨hthm.1, hthm.2.1⟩

/-! ## Odds array construction (src/unnamed/part_007 mapEventLabel,
buildOddsArrFromMarket)

    function mapEventLabel(e) {
      const t = String(e?.type || '').toUpperCase();
      if (t === 'P1') return '1';
      if (t === 'P2') return '2';
      if (t === 'X') return 'X';
      const n = String(e?.name || '').toLowerCase();
      if (n === 'x' || n.includes('draw')) return 'X';
      return '';
    }

    export function buildOddsArrFromMarket(market) {
      if (!market || typeof market !== 'object') return null;
      const marketBlocked = m?.is_blocked === true || m?.is_blocked === 1;
      const events = Object.values(m.event ?? {});
      const ordered = events.sort(by (order asc, id localeCompare));
      const odds = ordered.map((e, idx) => ({
        label: mapEventLabel(e) ||
          (ordered.length === 2 ? (idx === 0 ? '1' : '2')
                                : (idx === 0 ? '1' : idx === 1 ? 'X' : '2')),
        price: e?.price,
        blocked: Boolean(marketBlocked || e?.is_blocked) }));
      if (odds.length === 2) return odds;
      if (odds.length === 3) return odds;
      return null;
    }

Events are modelled as typed records (absent fields as `none`); the
blocked checks (=== true || === 1) are modelled as a boolean field. -/

def startsWithChars : List Char → List Char → Bool
  | [], _ => true
  | _ :: _, [] => false
  | p :: ps, c :: cs => p = c && startsWithChars ps cs

def hasSubstr : List Char → List Char → Bool
  | [], pat => startsWithChars pat []
  | c :: cs, pat => startsWithChars pat (c :: cs) || hasSubstr cs pat

/-- JavaScript String.prototype.includes. -/
def jsIncludes (s pat : String) : Bool := hasSubstr s.data pat.data

/-- JavaScript toUpperCase (ASCII range, which covers the compared
literals). -/
def jsToUpper (s : String) : String := String.mk (s.data.map Char.toUpper)

/-- JavaScript toLowerCase (ASCII range). -/
def jsToLower (s : String) : String := String.mk (s.data.map Char.toLower)

structure OddsEvent where
  type : Option String
  name : Option String
  order : Option Int
  id : Option String
  price : Option String
  is_blocked : Bool
deriving Repr, DecidableEq

structure OddsMarket where
  id : Option String
  type : Option String
  display_key : Option String
  is_blocked : Bool
  order : Option Int
  event : List OddsEvent
deriving Repr, DecidableEq

/-- Resolve an event's outcome label from its type, then its name;
empty string means unresolved (falls back to positional). -/
def mapEventLabel (e : OddsEvent) : String :=
  let t := jsToUpper (e.type.getD "")
  if t = "P1" then "1"
  else if t = "P2" then "2"
  else if t = "X" then "X"
  else
    let n := jsToLower (e.name.getD "")
    if n = "x" || jsIncludes n "draw" then "X" else ""

def MAX_SAFE_INTEGER : Int := 9007199254740991

/-- The JS sort key: a missing numeric order sorts last. -/
def eventOrderKey (e : OddsEvent) : Int :=
  match e.order with
  | some n => n
  | none => MAX_SAFE_INTEGER

/-- The event comparator: order ascending, then id lexicographic. -/
def eventLE (a b : OddsEvent) : Prop :=
  eventOrderKey a < eventOrderKey b
  ∨ (eventOrderKey a = eventOrderKey b ∧ (a.id.getD "") ≤ (b.id.getD ""))

instance : DecidableRel eventLE := fun a b =>
  inferInstanceAs
    (Decidable (eventOrderKey a < eventOrderKey b
      ∨ (eventOrderKey a = eventOrderKey b ∧ (a.id.getD "") ≤ (b.id.getD ""))))

instance : IsTotal OddsEvent eventLE := by
  refine ⟨fun a b => ?_⟩
  unfold eventLE
  rcases lt_trichotomy (eventOrderKey a) (eventOrderKey b) with h | h | h
  · exact Or.inl (Or.inl h)
  · rcases le_total (a.id.getD "") (b.id.getD "") with h2 | h2
    · exact Or.inl (Or.inr ⟨h, h2⟩)
    · exact Or.inr (Or.inr ⟨h.symm, h2⟩)
  · exact Or.inr (Or.inl h)

instance : IsTrans OddsEvent eventLE := by
  refine ⟨fun a b c hab hbc => ?_⟩
  unfold eventLE at hab hbc ⊢
  rcases hab with h1 | ⟨h1, h1s⟩ <;> rcases hbc with h2 | ⟨h2, h2s⟩
  · exact Or.inl (lt_trans h1 h2)
  · exact Or.inl (h2 ▸ h1)
  · exact Or.inl (h1 ▸ h2)
  · exact Or.inr ⟨h1.trans h2, le_trans h1s h2s⟩

/-- The per-event arrow function inside buildOddsArrFromMarket:
resolved label or positional fallback, the event's price, and the
market-or-event blocked flag. -/
def oddsEntryOf (marketBlocked : Bool) (orderedLength idx : Nat)
    (e : OddsEvent) : OddsOutcome :=
  let la := mapEventLabel e
  { label :=
      if la ≠ "" then la
      else if orderedLength = 2 then (if idx = 0 then "1" else "2")
      else if idx = 0 then "1" else if idx = 1 then "X" else "2",
    price := e.price,
    blocked := marketBlocked || e.is_blocked }

/-- Build the odds array from the (possibly absent) preferred market. -/
def buildOddsArrFromMarket (market : Option OddsMarket) :
    Option (List OddsOutcome) :=
  match market with
  | none => none
  | some m =>
      let ordered := List.insertionSort eventLE m.event
      let odds := ordered.mapIdx (oddsEntryOf m.is_blocked ordered.length)
      if odds.length = 2 then some odds
      else if odds.length = 3 then some odds
      else none

/-- C9 counterexample: a market whose two events both carry type P1
produces labels [1, 1], not the claimed multiset {1, 2} — type-based
resolution is applied before the positional fallback and can repeat
labels. -/
theorem buildOddsArr_label_cex :
    (buildOddsArrFromMarket (some
        ⟨some "m", some "P1P2", none, false, some 1,
         [⟨some "P1", none, some 1, some "a", some "1.5", false⟩,
          ⟨some "P1", none, some 2, some "b", some "2.5", false⟩]⟩)).map
      (fun l => l.map OddsOutcome.label)
      = some ["1", "1"] := by decide

theorem mapEventLabel_range (e : OddsEvent) :
    mapEventLabel e = "" ∨ mapEventLabel e = "1" ∨ mapEventLabel e = "2"
      ∨ mapEventLabel e = "X" := by
  simp only [mapEventLabel]
  split_ifs <;> simp

theorem oddsEntryOf_label (mb : Bool) (n idx : Nat) (e : OddsEvent) :
    (oddsEntryOf mb n idx e).label = "1" ∨ (oddsEntryOf mb n idx e).label = "X"
      ∨ (oddsEntryOf mb n idx e).label = "2" := by
  have hr := mapEventLabel_range e
  simp only [oddsEntryOf]
  rcases hr with h | h | h | h
  · simp only [h]
    split_ifs <;> simp_all
  · simp [h]
  · simp [h]
  · simp [h]

/-- C9 (amended): the odds array built from a preferred market is
either absent or has length exactly 2 or 3; every label is one of
1, X, 2 (type-based resolution first, then name, then positional in
the (order asc, id lex) ordering); when every event's type/name
resolution falls through, the labels are exactly [1, 2] or [1, X, 2].
Type/name-resolved labels may repeat (see the counterexample), so the
label multiset is not always {1, 2} / {1, X, 2}. -/
theorem buildOddsArr_spec (market : Option OddsMarket) (l : List OddsOutcome)
    (h : buildOddsArrFromMarket market = some l) :
    (l.length = 2 ∨ l.length = 3)
    ∧ (∀ o ∈ l, o.label = "1" ∨ o.label = "X" ∨ o.label = "2")
    ∧ (∀ m, market = some m → (∀ e ∈ m.event, mapEventLabel e = "") →
        l.map OddsOutcome.label = ["1", "2"]
          ∨ l.map OddsOutcome.label = ["1", "X", "2"]) := by
  match market with
  | none => exact Option.noConfusion h
  | some m =>
      simp only [buildOddsArrFromMarket] at h
      set ordered := List.insertionSort eventLE m.event with hord
      set odds := ordered.mapIdx (oddsEntryOf m.is_blocked ordered.length)
        with hodds
      have hlenodds : odds.length = ordered.length := by
        rw [hodds]
        exact List.length_mapIdx
      split_ifs at h with hl2 hl3
      · obtain rfl : odds = l := Option.some.inj h
        have hlen2 : ordered.length = 2 := by omega
        obtain ⟨a, b, hab⟩ := List.length_eq_two.mp hlen2
        have hoddseq : odds = [oddsEntryOf m.is_blocked ordered.length 0 a,
            oddsEntryOf m.is_blocked ordered.length 1 b] := by
          rw [hodds, hab]
          simp [List.mapIdx_cons]
        refine ⟨Or.inl hl2, ?_, ?_⟩
        · intro o ho
          rw [hoddseq] at ho
          simp only [List.mem_cons, List.not_mem_nil, or_false] at ho
          rcases ho with rfl | rfl <;> exact oddsEntryOf_label _ _ _ _
        · intro m' hm' hall
          obtain rfl : m = m' := Option.some.inj hm'
          have hamem : a ∈ m.event := by
            have ha : a ∈ ordered := by
              rw [hab]
              simp
            rw [hord] at ha
            exact (List.mem_insertionSort eventLE).mp ha
          have hbmem : b ∈ m.event := by
            have hb : b ∈ ordered := by
              rw [hab]
              simp
            rw [hord] at hb
            exact (List.mem_insertionSort eventLE).mp hb
          refine Or.inl ?_
          rw [hoddseq]
          simp [oddsEntryOf, hall a hamem, hall b hbmem, hlen2]
      · obtain rfl : odds = l := Option.some.inj h
        have hlen3 : ordered.length = 3 := by omega
        obtain ⟨a, b, c, habc⟩ := List.length_eq_three.mp hlen3
        have hoddseq : odds = [oddsEntryOf m.is_blocked ordered.length 0 a,
            oddsEntryOf m.is_blocked ordered.length 1 b,
            oddsEntryOf m.is_blocked ordered.length 2 c] := by
          rw [hodds, habc]
          simp [List.mapIdx_cons]
        refine ⟨Or.inr hl3, ?_, ?_⟩
        · intro o ho
          rw [hoddseq] at ho
          simp only [List.mem_cons, List.not_mem_nil, or_false] at ho
          rcases ho with rfl | rfl | rfl <;> exact oddsEntryOf_label _ _ _ _
        · intro m' hm' hall
          obtain rfl : m = m' := Option.some.inj hm'
          have hamem : a ∈ m.event := by
            have ha : a ∈ ordered := by
              rw [habc]
              simp
            rw [hord] at ha
            exact (List.mem_insertionSort eventLE).mp ha
          have hbmem : b ∈ m.event := by
            have hb : b ∈ ordered := by
              rw [habc]
              simp
            rw [hord] at hb
            exact (List.mem_insertionSort eventLE).mp hb
          have hcmem : c ∈ m.event := by
            have hc : c ∈ ordered := by
              rw [habc]
              simp
            rw [hord] at hc
            exact (List.mem_insertionSort eventLE).mp hc
          refine Or.inr ?_
          rw [hoddseq]
          simp [oddsEntryOf, hall a hamem, hall b hbmem, hall c hcmem, hlen3]

theorem buildOddsArr_spec_witness :
    List.map OddsOutcome.label
        [⟨"1", some "1.5", false⟩, ⟨"2", some "2.5", false⟩] = ["1", "2"]
      ∨ List.map OddsOutcome.label
        [⟨"1", some "1.5", false⟩, ⟨"2", some "2.5", false⟩] = ["1", "X", "2"] :=
  (buildOddsArr_spec
    (some ⟨some "m", some "P1P2", none, false, some 1,
      [⟨none, none, some 1, some "a", some "1.5", false⟩,
       ⟨none, none, some 2, some "b", some "2.5", false⟩]⟩)
    [⟨"1", some "1.5", false⟩, ⟨"2", some "2.5", false⟩]
    (by decide)).2.2
    ⟨some "m", some "P1P2", none, false, some 1,
      [⟨none, none, some 1, some "a", some "1.5", false⟩,
       ⟨none, none, some 2, some "b", some "2.5", false⟩]⟩
    rfl (by decide)

/-! ## Counts extraction (src/workers/src/lib/swarmCounts.ts)

    function unwrapSwarmData(raw) {
      if (!raw || typeof raw !== 'object') return raw;
      const data = raw.data;
      if (data && typeof data === 'object') {
        if (d.data && typeof d.data === 'object') return d.data;
        return data;
      }
      return raw;
    }

    export function extractSportsCountsFromSwarm(rawData) {
      const data = unwrapSwarmData(rawData);
      const sports = [];
      if (data && data.sport && typeof data.sport === 'object') {
        for (const s of Object.values(data.sport)) {
          const name = s?.name;
          const count = s?.game ? Object.keys(s.game).length : 0;
          if (name && count > 0) {
            sports.push({ name: String(name), count: Number(count) || 0 });
          }
        }
      }
      const totalGames = sports.reduce((sum, s) => sum + (Number(s?.count) || 0), 0);
      return { sports, totalGames };
    }
-/

/-- typeof v === 'object' together with truthiness (null is typeof
object but falsy, so the code's `v && typeof v === 'object'` tests
pick out exactly objects and arrays). -/
def isJsObject : JVal → Bool
  | JVal.obj _ => true
  | JVal.arr _ => true
  | _ => false

/-- JavaScript property access on an arbitrary value: only objects
carry fields. -/
def getField (v : JVal) (k : String) : Option JVal :=
  match v with
  | JVal.obj fs => lookupKey fs k
  | _ => none

/-- JavaScript truthiness. -/
def jtruthy : JVal → Bool
  | JVal.null => false
  | JVal.bool b => b
  | JVal.num n => n != 0
  | JVal.str s => s != ""
  | JVal.arr _ => true
  | JVal.obj _ => true

/-- Object.values (on an array: its elements). -/
def jsValues : JVal → List JVal
  | JVal.obj fs => fs.map Prod.snd
  | JVal.arr xs => xs
  | _ => []

/-- Object.keys(v).length for the values the extractor can meet. -/
def jsObjectKeysCount : JVal → Nat
  | JVal.obj fs => fs.length
  | JVal.arr xs => xs.length
  | JVal.str s => s.length
  | _ => 0

/-! JavaScript String(v). -/

mutual

def jsToString : JVal → String
  | JVal.null => "null"
  | JVal.bool b => if b then "true" else "false"
  | JVal.num n => toString n
  | JVal.str s => s
  | JVal.arr xs => jsToStringJoin xs
  | JVal.obj _ => "[object Object]"

def jsToStringJoin : List JVal → String
  | [] => ""
  | [v] => jsToString v
  | v :: rest => jsToString v ++ "," ++ jsToStringJoin rest

end

/-- Unwrap the single- or double-nested `data` envelope. -/
def unwrapSwarmData (raw : JVal) : JVal :=
  if isJsObject raw && jtruthy raw then
    match getField raw "data" with
    | some d =>
        if jtruthy d && isJsObject d then
          match getField d "data" with
          | some dd => if jtruthy dd && isJsObject dd then dd else d
          | none => d
        else raw
    | none => raw
  else raw

/-- Extract the per-sport live/prematch game counts from an upstream
counts payload. -/
def extractSportsCountsFromSwarm (rawData : JVal) :
    List (String × Nat) × Nat :=
  let data := unwrapSwarmData rawData
  let sports : List (String × Nat) :=
    if jtruthy data then
      match getField data "sport" with
      | some sp =>
          if jtruthy sp && isJsObject sp then
            (jsValues sp).filterMap (fun s =>
              let name := getField s "name"
              let count : Nat :=
                match getField s "game" with
                | some g => if jtruthy g then jsObjectKeysCount g else 0
                | none => 0
              if (match name with
                  | some v => jtruthy v
                  | none => false) && decide (0 < count) then
                some (jsToString (name.getD JVal.null), count)
              else none)
          else []
      | none => []
    else []
  (sports, sports.foldl (fun sum s => sum + s.2) 0)

theorem foldl_add_snd (l : List (String × Nat)) :
    l.foldl (fun sum s => sum + s.2) 0 = (l.map Prod.snd).sum := by
  suffices h : ∀ n, l.foldl (fun sum s => sum + s.2) n = n + (l.map Prod.snd).sum by
    simpa using h 0
  induction l with
  | nil => intro n; simp
  | cons hd rest ih =>
      intro n
      simp only [List.foldl_cons, List.map_cons, List.sum_cons, ih]
      omega

/-- The sport entries whose name field is a string (or absent) and
whose game field is a mapping, null, or absent — the shapes the
upstream feed produces. -/
def countsWellTyped (rawData : JVal) : Bool :=
  match getField (unwrapSwarmData rawData) "sport" with
  | some sp =>
      (jsValues sp).all (fun s =>
        (match getField s "name" with
         | none => true
         | some (JVal.str _) => true
         | some _ => false)
        && (match getField s "game" with
            | none => true
            | some JVal.null => true
            | some (JVal.obj _) => true
            | some _ => false))
  | none => true

/-- C10: a sport is listed iff it has a non-empty (string) name and a
strictly positive number of games; a listed sport's count is the
number of keys of its game map; total_games is the sum of the listed
counts, so nameless or empty sports never contribute. -/
theorem extractSportsCounts_spec (rawData : JVal)
    (hwf : countsWellTyped rawData = true) :
    (extractSportsCountsFromSwarm rawData).2
      = ((extractSportsCountsFromSwarm rawData).1.map Prod.snd).sum
    ∧ ∀ sp, getField (unwrapSwarmData rawData) "sport" = some sp →
        jtruthy (unwrapSwarmData rawData) = true → jtruthy sp = true →
        isJsObject sp = true →
        (extractSportsCountsFromSwarm rawData).1
          = (jsValues sp).filterMap (fun s =>
              match getField s "name", getField s "game" with
              | some (JVal.str n), some (JVal.obj gfs) =>
                  if n ≠ "" ∧ 0 < gfs.length then some (n, gfs.length) else none
              | _, _ => none) := by
  constructor
  · exact foldl_add_snd _
  · intro sp hsp hdata hspt hspo
    have hfst : (extractSportsCountsFromSwarm rawData).1
        = (jsValues sp).filterMap (fun s =>
            let name := getField s "name"
            let count : Nat :=
              match getField s "game" with
              | some g => if jtruthy g then jsObjectKeysCount g else 0
              | none => 0
            if (match name with
                | some v => jtruthy v
                | none => false) && decide (0 < count) then
              some (jsToString (name.getD JVal.null), count)
            else none) := by
      simp only [extractSportsCountsFromSwarm, hdata, if_pos, hsp, hspt, hspo,
        Bool.and_self, if_true]
    rw [hfst]
    apply List.filterMap_congr
    intro s hs
    have hwfs := hwf
    unfold countsWellTyped at hwfs
    rw [hsp] at hwfs
    have hselem := (List.all_eq_true.mp hwfs) s hs
    simp only [Bool.and_eq_true] at hselem
    obtain ⟨hname, hgame⟩ := hselem
    cases hn : getField s "name" with
    | none => simp
    | some nv =>
        cases nv with
        | str n =>
            cases hg : getField s "game" with
            | none => simp [jtruthy]
            | some gv =>
                cases gv with
                | null => simp [jtruthy]
                | obj gfs =>
                    simp only [jtruthy, jsObjectKeysCount, if_pos rfl]
                    by_cases hne : n = ""
                    · subst hne
                      simp [jtruthy]
                    · by_cases hpos : 0 < gfs.length
                      · simp [jtruthy, hne, hpos, jsToString]
                      · simp [jtruthy, hne, hpos]
                | bool b =>
                    rw [hg] at hgame
                    simp at hgame
                | num nn =>
                    rw [hg] at hgame
                    simp at hgame
                | str ss =>
                    rw [hg] at hgame
                    simp at hgame
                | arr xs =>
                    rw [hg] at hgame
                    simp at hgame
        | null =>
            rw [hn] at hname
            simp at hname
        | bool b =>
            rw [hn] at hname
            simp at hname
        | num nn =>
            rw [hn] at hname
            simp at hname
        | arr xs =>
            rw [hn] at hname
            simp at hname
        | obj fs =>
            rw [hn] at hname
            simp at hname

def countsSportNodeExample : JVal :=
  JVal.obj [
    ("1", JVal.obj [("name", JVal.str "Football"),
                    ("game", JVal.obj [("g1", JVal.num 1), ("g2", JVal.num 2)])]),
    ("2", JVal.obj [("name", JVal.str ""),
                    ("game", JVal.obj [("g3", JVal.num 3)])])]

def countsPayloadExample : JVal :=
  JVal.obj [("data", JVal.obj [("sport", countsSportNodeExample)])]

theorem extractSportsCounts_spec_witness :
    (extractSportsCountsFromSwarm countsPayloadExample).1
      = (jsValues countsSportNodeExample).filterMap
          (fun s =>
            match getField s "name", getField s "game" with
            | some (JVal.str n), some (JVal.obj gfs) =>
                if n ≠ "" ∧ 0 < gfs.length then some (n, gfs.length) else none
            | _, _ => none) :=
  (extractSportsCounts_spec countsPayloadExample rfl).2
    countsSportNodeExample rfl rfl rfl rfl

end DobEdge
